import Mathlib

/-!
Shallow embedding of the SPELL dataflow-interpreter core
(`src/core/{types,schema,error,ops,engine}.rs`) and proofs about it.

Modelling conventions:
* `serde_json::Value` becomes the inductive `Json`; JSON numbers (`f64` at
  runtime in the source) are modelled as exact rationals `ℚ` — every claim
  settled below depends only on small-integer arithmetic and on `b == 0.0`
  tests, where the two agree.
* `HashMap<String, V>` becomes an association list with unique keys
  (`sinsert` replaces an existing binding); iteration order, which is
  unspecified for Rust's `HashMap`, is fixed to list order.
* The mutually recursive evaluation (`Engine::execute_node`, the
  per-operation re-entry of `Ops::get` inside `Map`/`Reduce`/`Filter`) is
  given a fuel parameter; `none` means the recursion bound was reached and
  never corresponds to a behaviour of the source.  Every result of the form
  `some _` is the behaviour of the Rust code.
* Evaluation results additionally carry a `Nat` counting how many
  `Operation::execute` invocations occurred — the "instrumented registry"
  the specification appeals to for observing cache idempotence.
* `Print`'s write to stdout is not modelled (its value behaviour is); the
  strings produced by `format!("{}", v)` / `format!("{:?}", v)` inside
  error payloads are rendered by `Json.render` up to number formatting and
  string escaping, which no claim inspects.
-/

/-- JSON values (`serde_json::Value`).  Numbers are modelled as `ℚ`. -/
inductive Json where
  | null : Json
  | bool (b : Bool) : Json
  | num (q : ℚ) : Json
  | str (s : String) : Json
  | arr (elems : List Json) : Json
  | obj (fields : List (String × Json)) : Json

mutual
/-- Structural equality of JSON values (`PartialEq` on `serde_json::Value`;
object comparison is order-sensitive here where serde's map comparison is
not — no claim below compares objects). -/
def Json.beq : Json → Json → Bool
  | .null, .null => true
  | .bool a, .bool b => a == b
  | .num a, .num b => a == b
  | .str a, .str b => a == b
  | .arr xs, .arr ys => Json.beqL xs ys
  | .obj xs, .obj ys => Json.beqO xs ys
  | _, _ => false

def Json.beqL : List Json → List Json → Bool
  | [], [] => true
  | x :: xs, y :: ys => Json.beq x y && Json.beqL xs ys
  | _, _ => false

def Json.beqO : List (String × Json) → List (String × Json) → Bool
  | [], [] => true
  | (k, v) :: xs, (k', v') :: ys => k == k' && Json.beq v v' && Json.beqO xs ys
  | _, _ => false
end

/-- Association-list lookup, first binding wins (`HashMap::get`). -/
def slookup {α : Type} : List (String × α) → String → Option α
  | [], _ => none
  | (k, v) :: rest, key => if k = key then some v else slookup rest key

/-- Association-list insert that replaces an existing binding
(`HashMap::insert`); keeps keys unique. -/
def sinsert {α : Type} : List (String × α) → String → α → List (String × α)
  | [], key, v => [(key, v)]
  | (k, w) :: rest, key, v =>
    if k = key then (key, v) :: rest else (k, w) :: sinsert rest key v

/-- `Value::as_f64` — every JSON number converts. -/
def Json.asF64 : Json → Option ℚ
  | .num q => some q
  | _ => none

/-- `Value::as_str`. -/
def Json.asStr : Json → Option String
  | .str s => some s
  | _ => none

/-- `Value::as_bool`. -/
def Json.asBool : Json → Option Bool
  | .bool b => some b
  | _ => none

/-- `Value::as_array`. -/
def Json.asArr : Json → Option (List Json)
  | .arr xs => some xs
  | _ => none

/-- `Value::as_object`. -/
def Json.asObj : Json → Option (List (String × Json))
  | .obj kvs => some kvs
  | _ => none

mutual
/-- Compact rendering of a JSON value, standing in for serde's
`format!("{}", v)` / `format!("{:?}", v)` (number formatting and string
escaping approximated; no claim below inspects these strings). -/
def Json.render : Json → String
  | .null => "null"
  | .bool b => if b then "true" else "false"
  | .num q => toString q
  | .str s => "\"" ++ s ++ "\""
  | .arr xs => "[" ++ Json.renderList xs ++ "]"
  | .obj kvs => "\x7b" ++ Json.renderObj kvs ++ "\x7d"

def Json.renderList : List Json → String
  | [] => ""
  | [x] => Json.render x
  | x :: xs => Json.render x ++ "," ++ Json.renderList xs

def Json.renderObj : List (String × Json) → String
  | [] => ""
  | [(k, v)] => "\"" ++ k ++ "\":" ++ Json.render v
  | (k, v) :: kvs => "\"" ++ k ++ "\":" ++ Json.render v ++ "," ++ Json.renderObj kvs
end

/-- The closed type set (`SpellType`, src/core/types.rs). -/
inductive SpellType where
  | number : SpellType
  | string : SpellType
  | boolean : SpellType
  | array (inner : SpellType) : SpellType
  | any : SpellType
  | unit : SpellType
  deriving DecidableEq, Repr

/-- `char::is_whitespace` stand-in (`str::trim`); the types this program
parses never contain whitespace beyond ASCII, and the round-trip claim
never exercises trimming. -/
def isWS (c : Char) : Bool := c.isWhitespace

/-- `str::trim` on a character list. -/
def trimChars (l : List Char) : List Char :=
  ((l.dropWhile isWS).reverse.dropWhile isWS).reverse

/-- `SpellType::parse` on a character list, structurally recursive on a
depth bound.  Mirrors the source: trim, match the five leaf tokens,
otherwise the `Array<` … `>` bracket rule, otherwise the `Unknown type`
error.  Each recursive call is on a strictly shorter list, so the bound
supplied by `parseTypeL` is always sufficient and the `0` case is
unreachable (`parseTypeAux_irrel` below makes this precise). -/
def parseTypeAux : Nat → List Char → Except String SpellType
  | 0, _ => .error "recursion bound reached"
  | fuel + 1, l =>
    if trimChars l = "Number".toList then .ok .number
    else if trimChars l = "String".toList then .ok .string
    else if trimChars l = "Boolean".toList then .ok .boolean
    else if trimChars l = "Any".toList then .ok .any
    else if trimChars l = "Unit".toList then .ok .unit
    else
      match trimChars l with
      | 'A' :: 'r' :: 'r' :: 'a' :: 'y' :: '<' :: rest =>
        if rest.getLast? = some '>' then
          (parseTypeAux fuel rest.dropLast).map SpellType.array
        else .error ("Unknown type: \x27" ++ String.mk (trimChars l) ++ "\x27")
      | t => .error ("Unknown type: \x27" ++ String.mk t ++ "\x27")

/-- `SpellType::parse` on a character list. -/
def parseTypeL (l : List Char) : Except String SpellType :=
  parseTypeAux (l.length + 1) l

/-- `SpellType::parse`. -/
def SpellType.parse (s : String) : Except String SpellType :=
  parseTypeL s.toList

/-- The `Display` rendering of a type, as a character list. -/
def SpellType.displayL : SpellType → List Char
  | .number => "Number".toList
  | .string => "String".toList
  | .boolean => "Boolean".toList
  | .any => "Any".toList
  | .unit => "Unit".toList
  | .array inner => "Array<".toList ++ inner.displayL ++ ['>']

/-- `impl fmt::Display for SpellType`. -/
def SpellType.display (t : SpellType) : String := String.mk t.displayL

mutual
/-- `SpellType::matches`: structural check of a type against a JSON value. -/
def SpellType.matches : SpellType → Json → Bool
  | .number, .num _ => true
  | .string, .str _ => true
  | .boolean, .bool _ => true
  | .unit, .null => true
  | .any, _ => true
  | .array inner, .arr xs => SpellType.matchesAll inner xs
  | _, _ => false

/-- `arr.iter().all(|item| inner.matches(item))`. -/
def SpellType.matchesAll : SpellType → List Json → Bool
  | _, [] => true
  | t, x :: xs => SpellType.matches t x && SpellType.matchesAll t xs
end

/-- `TypedValue` (src/core/types.rs): untagged sum of a typed reference and
a typed literal; both shapes carry a declared type. -/
inductive TypedValue where
  | reference (ref : String) (valueType : SpellType) : TypedValue
  | literal (lit : Json) (valueType : SpellType) : TypedValue

/-- `TypedValue::get_type`. -/
def TypedValue.get_type : TypedValue → Option SpellType
  | .reference _ t => some t
  | .literal _ t => some t

/-- `TypedValue::is_reference`. -/
def TypedValue.is_reference : TypedValue → Bool
  | .reference _ _ => true
  | .literal _ _ => false

/-- `TypedValue::get_reference`. -/
def TypedValue.get_reference : TypedValue → Option String
  | .reference r _ => some r
  | .literal _ _ => none

/-- `TypedValue::get_literal`. -/
def TypedValue.get_literal : TypedValue → Option Json
  | .reference _ _ => none
  | .literal l _ => some l

/-- Second stage of serde's untagged decoding: the `Literal` variant
(`{"literal": <json>, "type": <surface>}`, unknown fields ignored). -/
def tryLiteral (kvs : List (String × Json)) : Option TypedValue :=
  match slookup kvs "literal", slookup kvs "type" with
  | some l, some (.str ts) =>
    match SpellType.parse ts with
    | .ok t => some (.literal l t)
    | .error _ => none
  | _, _ => none

/-- serde's untagged decoding of a port value into a `TypedValue`:
try the `Reference` shape first, then the `Literal` shape; anything else
fails (`None` models a `serde_json::from_value` error). -/
def decodeTypedValue (v : Json) : Option TypedValue :=
  match v with
  | .obj kvs =>
    match slookup kvs "ref", slookup kvs "type" with
    | some (.str r), some (.str ts) =>
      match SpellType.parse ts with
      | .ok t => some (.reference r t)
      | .error _ => tryLiteral kvs
    | _, _ => tryLiteral kvs
  | _ => none

/-- `Node` (src/core/schema.rs): operation name, optional declared return,
and the open map of argument ports (raw JSON). -/
structure Node where
  op : String
  returns : Option SpellType
  args : List (String × Json)

/-- `Graph`: node-id → node. -/
structure Graph where
  nodes : List (String × Node)

/-- `Node::get_all_typed_args`: skip the reserved keys, decode every other
port; a decode failure is recorded as `none` (the source stores the
corresponding `MissingTypeAnnotation` whose node field the engine
rewrites). -/
def Node.get_all_typed_args (n : Node) : List (String × Option TypedValue) :=
  n.args.filterMap fun kv =>
    if kv.1 = "op" ∨ kv.1 = "returns" then none
    else some (kv.1, decodeTypedValue kv.2)

/-- The error taxonomy (src/core/error.rs).  The source constructor
`MissingTypeAnnotation` is rendered `missingTypeAnnot` here. -/
inductive Error where
  | nodeNotFound (id : String) : Error
  | cycleDetected (id : String) : Error
  | missingInput (node port : String) : Error
  | typeMismatch (node port : String) (expected actual : SpellType) : Error
  | invalidValue (node port : String) (expectedType : SpellType) (actualValue : String) : Error
  | invalidType (node : String) (expected actual : String) : Error
  | operationError (node reason : String) : Error
  | unknownOperation (name : String) : Error
  | missingTypeAnnot (node port : String) : Error
  deriving DecidableEq, Repr

/-- Result type of `Operation::execute`: an output-port map or an error. -/
abbrev OpRes := Except Error (List (String × Json))

/-- Nested-execution type threaded into the higher-order operations:
given an operation name and an input map, run it via the registry,
returning the result and the number of `execute` invocations performed
(`none` = fuel exhausted, a model artefact only). -/
abbrev RunOp := String → List (String × Json) → Option (OpRes × Nat)

/-- `get_input` (src/core/ops.rs): required-port extraction with the
`"unknown"` placeholder node the engine later rewrites. -/
def get_input (inputs : List (String × Json)) (name : String) : Except Error Json :=
  match slookup inputs name with
  | some v => .ok v
  | none => .error (.missingInput "unknown" name)

/-- `get_f64`. -/
def get_f64 (inputs : List (String × Json)) (name : String) : Except Error ℚ :=
  match get_input inputs name with
  | .error e => .error e
  | .ok v =>
    match v.asF64 with
    | some q => .ok q
    | none => .error (.invalidType "unknown" "number" v.render)

/-- `get_bool`. -/
def get_bool (inputs : List (String × Json)) (name : String) : Except Error Bool :=
  match get_input inputs name with
  | .error e => .error e
  | .ok v =>
    match v.asBool with
    | some b => .ok b
    | none => .error (.invalidType "unknown" "boolean" v.render)

/-- `ConstOp::execute`. -/
def ConstOp.execute (inputs : List (String × Json)) : OpRes :=
  match get_input inputs "value" with
  | .error e => .error e
  | .ok v => .ok (sinsert [] "out" v)

/-- `PrintOp::execute` (the `println!` side effect is not modelled;
the value behaviour — pass `in` through on `out` — is). -/
def PrintOp.execute (inputs : List (String × Json)) : OpRes :=
  match get_input inputs "in" with
  | .error e => .error e
  | .ok v => .ok (sinsert [] "out" v)

/-- Kernel-computable rational addition (Mathlib's `+` on `ℚ` is
`@[irreducible]`; `qadd_eq_add` below proves this is the same function). -/
def qadd (a b : ℚ) : ℚ := mkRat (a.num * b.den + b.num * a.den) (a.den * b.den)

/-- Kernel-computable rational subtraction (see `qsub_eq_sub`). -/
def qsub (a b : ℚ) : ℚ := mkRat (a.num * b.den - b.num * a.den) (a.den * b.den)

/-- Kernel-computable rational multiplication (see `qmul_eq_mul`). -/
def qmul (a b : ℚ) : ℚ := mkRat (a.num * b.num) (a.den * b.den)

/-- Kernel-computable rational inverse (see `qinv_eq_inv`). -/
def qinv (b : ℚ) : ℚ := Rat.divInt b.den b.num

/-- Kernel-computable rational division (see `qdiv_eq_div`). -/
def qdiv (a b : ℚ) : ℚ := qmul a (qinv b)

/-- The four arithmetic operations (`enum MathOp`). -/
inductive MathKind where
  | add : MathKind
  | sub : MathKind
  | mul : MathKind
  | div : MathKind
  deriving DecidableEq, Repr

/-- `MathOp::execute`: double-precision arithmetic modelled exactly on ℚ;
`Div` with `b == 0.0` is the `Division by zero` operation error. -/
def MathOp.execute (k : MathKind) (inputs : List (String × Json)) : OpRes :=
  match get_f64 inputs "a" with
  | .error e => .error e
  | .ok a =>
    match get_f64 inputs "b" with
    | .error e => .error e
    | .ok b =>
      match k with
      | .add => .ok (sinsert [] "out" (.num (qadd a b)))
      | .sub => .ok (sinsert [] "out" (.num (qsub a b)))
      | .mul => .ok (sinsert [] "out" (.num (qmul a b)))
      | .div =>
        if b = 0 then .error (.operationError "unknown" "Division by zero")
        else .ok (sinsert [] "out" (.num (qdiv a b)))

/-- The three comparison operations (`enum LogicOp`). -/
inductive LogicKind where
  | eq : LogicKind
  | gt : LogicKind
  | lt : LogicKind
  deriving DecidableEq, Repr

/-- `LogicOp::execute`: numbers compare as doubles; otherwise `Eq` is
structural JSON equality and `Gt`/`Lt` are `InvalidType`. -/
def LogicOp.execute (k : LogicKind) (inputs : List (String × Json)) : OpRes :=
  match get_input inputs "a" with
  | .error e => .error e
  | .ok a =>
    match get_input inputs "b" with
    | .error e => .error e
    | .ok b =>
      match a, b with
      | .num f1, .num f2 =>
        let r : Bool := match k with
          | .eq => decide (f1 = f2)
          | .gt => decide (f1 > f2)
          | .lt => decide (f1 < f2)
        .ok (sinsert [] "out" (.bool r))
      | a', b' =>
        match k with
        | .eq => .ok (sinsert [] "out" (.bool (Json.beq a' b')))
        | _ => .error (.invalidType "unknown" "comparable numbers" "mixed/non-numeric types")

/-- `SwitchOp::execute`: branch-selection mode when both `true` and
`false` ports are bound, otherwise routing mode on `data`. -/
def SwitchOp.execute (inputs : List (String × Json)) : OpRes :=
  match get_bool inputs "cond" with
  | .error e => .error e
  | .ok cond =>
    if (slookup inputs "true").isSome ∧ (slookup inputs "false").isSome then
      match get_input inputs (if cond then "true" else "false") with
      | .error e => .error e
      | .ok v => .ok (sinsert [] "out" v)
    else
      match get_input inputs "data" with
      | .error e => .error e
      | .ok data =>
        let m := if cond then sinsert [] "true" data else sinsert [] "false" data
        .ok (sinsert m "out" data)

/-- `LenOp::execute`. -/
def LenOp.execute (inputs : List (String × Json)) : OpRes :=
  match get_input inputs "list" with
  | .error e => .error e
  | .ok lv =>
    match lv.asArr with
    | none => .error (.invalidType "Len" "array" "non-array")
    | some list => .ok (sinsert [] "out" (.num (list.length : ℚ)))

/-- `Ops::get` viewed as a membership test: the closed built-in registry. -/
def Ops.known : String → Bool
  | "Const" => true
  | "Print" => true
  | "Add" => true
  | "Sub" => true
  | "Mul" => true
  | "Div" => true
  | "Eq" => true
  | "Gt" => true
  | "Lt" => true
  | "Switch" => true
  | "Map" => true
  | "Reduce" => true
  | "Len" => true
  | "Filter" => true
  | _ => false

/-- The per-element map of `static_params` rebuilt by insertion
(`for (k, v) in &static_params { op_inputs.insert(k, v) }`). -/
def buildParams (params : List (String × Json)) : List (String × Json) :=
  params.foldl (fun m kv => sinsert m kv.1 kv.2) []

/-- The `params` extraction shared by `Map` and `Filter`: absent means
empty, present-but-not-an-object is an `InvalidType` naming the op. -/
def getStaticParams (opLabel : String) (inputs : List (String × Json)) :
    Except Error (List (String × Json)) :=
  match slookup inputs "params" with
  | none => .ok []
  | some pv =>
    match pv.asObj with
    | some m => .ok m
    | none => .error (.invalidType opLabel "object (params)" "non-object")

/-- The element loop of `MapOp::execute`: run `opName` on
`params ∪ {itemArg ↦ item}` for each element in order, collecting the
`"out"` value (null when absent); the invocation count is accumulated. -/
def mapLoop (runOp : RunOp) (opName itemArg : String)
    (params : List (String × Json)) : List Json → Option (Except Error (List Json) × Nat)
  | [] => some (.ok [], 0)
  | item :: rest =>
    match runOp opName (sinsert (buildParams params) itemArg item) with
    | none => none
    | some (.error e, c) => some (.error e, c)
    | some (.ok m, c) =>
      match mapLoop runOp opName itemArg params rest with
      | none => none
      | some (.error e, c') => some (.error e, c + c')
      | some (.ok vs, c') => some (.ok (((slookup m "out").getD .null) :: vs), c + c')

/-- `MapOp::execute`.  Note the source's `get_input(inputs, "arg")?`:
an absent `arg` port is a `MissingInput` error; only a present
non-string `arg` falls back to the default item key `"in"`. -/
def MapOp.execute (runOp : RunOp) (inputs : List (String × Json)) : Option (OpRes × Nat) :=
  match get_input inputs "list" with
  | .error e => some (.error e, 0)
  | .ok lv =>
    match lv.asArr with
    | none => some (.error (.invalidType "Map" "array" "non-array"), 0)
    | some list =>
      match get_input inputs "apply_op" with
      | .error e => some (.error e, 0)
      | .ok ov =>
        match ov.asStr with
        | none => some (.error (.invalidType "Map" "string (op name)" "non-string"), 0)
        | some opName =>
          match get_input inputs "arg" with
          | .error e => some (.error e, 0)
          | .ok av =>
            match getStaticParams "Map" inputs with
            | .error e => some (.error e, 0)
            | .ok staticParams =>
              if Ops.known opName then
                match mapLoop runOp opName (av.asStr.getD "in") staticParams list with
                | none => none
                | some (.error e, c) => some (.error e, c)
                | some (.ok vs, c) => some (.ok (sinsert [] "out" (.arr vs)), c)
              else some (.error (.unknownOperation opName), 0)

/-- The accumulator loop of `ReduceOp::execute`. -/
def reduceLoop (runOp : RunOp) (opName accArg itemArg : String) :
    List Json → Json → Option (Except Error Json × Nat)
  | [], acc => some (.ok acc, 0)
  | item :: rest, acc =>
    match runOp opName (sinsert (sinsert [] accArg acc) itemArg item) with
    | none => none
    | some (.error e, c) => some (.error e, c)
    | some (.ok m, c) =>
      match reduceLoop runOp opName accArg itemArg rest ((slookup m "out").getD .null) with
      | none => none
      | some (.error e, c') => some (.error e, c + c')
      | some (.ok acc', c') => some (.ok acc', c + c')

/-- `ReduceOp::execute`.  `acc_arg` and `item_arg` are required ports
(absence is `MissingInput`); present non-strings fall back to `"a"` /
`"b"`. -/
def ReduceOp.execute (runOp : RunOp) (inputs : List (String × Json)) : Option (OpRes × Nat) :=
  match get_input inputs "list" with
  | .error e => some (.error e, 0)
  | .ok lv =>
    match lv.asArr with
    | none => some (.error (.invalidType "Reduce" "array" "non-array"), 0)
    | some list =>
      match get_input inputs "apply_op" with
      | .error e => some (.error e, 0)
      | .ok ov =>
        match ov.asStr with
        | none => some (.error (.invalidType "Reduce" "string (op name)" "non-string"), 0)
        | some opName =>
          match get_input inputs "initial" with
          | .error e => some (.error e, 0)
          | .ok initial =>
            match get_input inputs "acc_arg" with
            | .error e => some (.error e, 0)
            | .ok accv =>
              match get_input inputs "item_arg" with
              | .error e => some (.error e, 0)
              | .ok itemv =>
                if Ops.known opName then
                  match reduceLoop runOp opName (accv.asStr.getD "a")
                      (itemv.asStr.getD "b") list initial with
                  | none => none
                  | some (.error e, c) => some (.error e, c)
                  | some (.ok acc, c) => some (.ok (sinsert [] "out" acc), c)
                else some (.error (.unknownOperation opName), 0)

/-- The element loop of `FilterOp::execute`: keep elements whose inner
`"out"` is boolean true (missing or non-boolean counts as false). -/
def filterLoop (runOp : RunOp) (opName itemArg : String)
    (params : List (String × Json)) : List Json → Option (Except Error (List Json) × Nat)
  | [] => some (.ok [], 0)
  | item :: rest =>
    match runOp opName (sinsert (buildParams params) itemArg item) with
    | none => none
    | some (.error e, c) => some (.error e, c)
    | some (.ok m, c) =>
      match filterLoop runOp opName itemArg params rest with
      | none => none
      | some (.error e, c') => some (.error e, c + c')
      | some (.ok vs, c') =>
        if ((slookup m "out").bind Json.asBool).getD false then
          some (.ok (item :: vs), c + c')
        else some (.ok (vs), c + c')

/-- `FilterOp::execute`.  Like `Map` but with default item key `"a"`. -/
def FilterOp.execute (runOp : RunOp) (inputs : List (String × Json)) : Option (OpRes × Nat) :=
  match get_input inputs "list" with
  | .error e => some (.error e, 0)
  | .ok lv =>
    match lv.asArr with
    | none => some (.error (.invalidType "Filter" "array" "non-array"), 0)
    | some list =>
      match get_input inputs "apply_op" with
      | .error e => some (.error e, 0)
      | .ok ov =>
        match ov.asStr with
        | none => some (.error (.invalidType "Filter" "string (op name)" "non-string"), 0)
        | some opName =>
          match get_input inputs "arg" with
          | .error e => some (.error e, 0)
          | .ok av =>
            match getStaticParams "Filter" inputs with
            | .error e => some (.error e, 0)
            | .ok staticParams =>
              if Ops.known opName then
                match filterLoop runOp opName (av.asStr.getD "a") staticParams list with
                | none => none
                | some (.error e, c) => some (.error e, c)
                | some (.ok vs, c) => some (.ok (sinsert [] "out" (.arr vs)), c)
              else some (.error (.unknownOperation opName), 0)

/-- One registry dispatch-and-execute (`Ops::get(name)` followed by
`op.execute(inputs)`): unknown names yield `UnknownOperation` with no
execution; otherwise the count is one plus the nested executions.  The
fuel bounds the nesting depth of higher-order operations. -/
def execOp : Nat → String → List (String × Json) → Option (OpRes × Nat)
  | 0, _, _ => none
  | fuel + 1, name, inputs =>
    match name with
    | "Const" => some (ConstOp.execute inputs, 1)
    | "Print" => some (PrintOp.execute inputs, 1)
    | "Add" => some (MathOp.execute .add inputs, 1)
    | "Sub" => some (MathOp.execute .sub inputs, 1)
    | "Mul" => some (MathOp.execute .mul inputs, 1)
    | "Div" => some (MathOp.execute .div inputs, 1)
    | "Eq" => some (LogicOp.execute .eq inputs, 1)
    | "Gt" => some (LogicOp.execute .gt inputs, 1)
    | "Lt" => some (LogicOp.execute .lt inputs, 1)
    | "Switch" => some (SwitchOp.execute inputs, 1)
    | "Len" => some (LenOp.execute inputs, 1)
    | "Map" =>
      match MapOp.execute (execOp fuel) inputs with
      | none => none
      | some (r, c) => some (r, c + 1)
    | "Reduce" =>
      match ReduceOp.execute (execOp fuel) inputs with
      | none => none
      | some (r, c) => some (r, c + 1)
    | "Filter" =>
      match FilterOp.execute (execOp fuel) inputs with
      | none => none
      | some (r, c) => some (r, c + 1)
    | other => some (.error (.unknownOperation other), 0)

/-- The engine's mutable state (`Engine.cache`, `Engine.type_cache`).  The
`visiting` set is threaded separately, as the source passes it by mutable
reference through the recursion. -/
structure EngSt where
  cache : List (String × Json)
  typeCache : List (String × SpellType)

/-- Result of one `Engine::execute_node` call: the `out` value or error,
the state and visiting set after the call, and the number of
`Operation::execute` invocations performed during it. -/
abbrev EngOut := Except Error Json × EngSt × List String × Nat

/-- The error rewrite the engine applies to operation-layer errors
(step 5 of `execute_node`): the placeholder node is replaced with the
current node-id for `MissingInput`, `InvalidType` and `OperationError`. -/
def rewriteNodeError (nodeId : String) : Error → Error
  | .missingInput _ port => .missingInput nodeId port
  | .invalidType _ expected actual => .invalidType nodeId expected actual
  | .operationError _ reason => .operationError nodeId reason
  | e => e

/-- `Engine::resolve_typed_value`, parameterised by the recursive entry
point (`execute_node` at one less fuel).  REQUIRES explicit types. -/
def resolveTypedValueF (recur : String → EngSt → List String → Option EngOut)
    (tv : TypedValue) (nodeId portName : String) (st : EngSt) (vis : List String) :
    Option EngOut :=
  match tv.get_type with
  | none => some (.error (.missingTypeAnnot nodeId portName), st, vis, 0)
  | some declaredType =>
    if tv.is_reference then
      match tv.get_reference with
      | none => some (.error (.operationError nodeId "Invalid reference"), st, vis, 0)
      | some ref =>
        match recur ref st vis with
        | none => none
        | some (.error e, st', vis', c) => some (.error e, st', vis', c)
        | some (.ok resolved, st', vis', c) =>
          if declaredType.matches resolved then some (.ok resolved, st', vis', c)
          else
            some (.error (.typeMismatch nodeId portName declaredType
              ((slookup st'.typeCache ref).getD .any)), st', vis', c)
    else
      match tv.get_literal with
      | some lit =>
        if declaredType.matches lit then some (.ok lit, st, vis, 0)
        else some (.error (.invalidValue nodeId portName declaredType lit.render), st, vis, 0)
      | none => some (.error (.missingTypeAnnot nodeId portName), st, vis, 0)

/-- Step 4 of `execute_node`: resolve each decoded argument in turn,
accumulating `resolved_args`; a decode failure surfaces as
`MissingTypeAnnotation` with the node-id rewritten in. -/
def resolveArgsF (recur : String → EngSt → List String → Option EngOut)
    (nodeId : String) :
    List (String × Option TypedValue) → List (String × Json) → EngSt → List String →
    Option (Except Error (List (String × Json)) × EngSt × List String × Nat)
  | [], acc, st, vis => some (.ok acc, st, vis, 0)
  | (key, otv) :: rest, acc, st, vis =>
    match otv with
    | none => some (.error (.missingTypeAnnot nodeId key), st, vis, 0)
    | some tv =>
      match resolveTypedValueF recur tv nodeId key st vis with
      | none => none
      | some (.error e, st', vis', c) => some (.error e, st', vis', c)
      | some (.ok v, st', vis', c) =>
        match resolveArgsF recur nodeId rest (sinsert acc key v) st' vis' with
        | none => none
        | some (r, st2, vis2, c') => some (r, st2, vis2, c + c')

/-- Step 6 of `execute_node`: if the node declares a return type and the
operation produced an `out` value, require a match (recording the
declared type in the type cache) or fail with `InvalidValue`. -/
def checkReturn (nodeId : String) (node : Node) (result : List (String × Json))
    (st : EngSt) : Except Error EngSt :=
  match node.returns, slookup result "out" with
  | some declared, some outVal =>
    if declared.matches outVal then
      .ok { st with typeCache := sinsert st.typeCache nodeId declared }
    else
      .error (.invalidValue nodeId "out" declared outVal.render)
  | _, _ => .ok st

/-- Steps 6–9 of `execute_node`: output type check (`checkReturn`), cache
population (the `out` value under the bare node-id, every other port
under `"<id>:<port>"`), removal from the visiting set, and production of
the `out` value. -/
def finishNode (nodeId : String) (node : Node) (result : List (String × Json))
    (st : EngSt) (vis : List String) (cnt : Nat) : EngOut :=
  match checkReturn nodeId node result st with
  | .error e => (.error e, st, vis, cnt)
  | .ok st1 =>
    let st2 : EngSt :=
      match slookup result "out" with
      | some outVal => { st1 with cache := sinsert st1.cache nodeId outVal }
      | none => st1
    let cache3 :=
      result.foldl
        (fun c pv => if pv.1 = "out" then c else sinsert c (nodeId ++ ":" ++ pv.1) pv.2)
        st2.cache
    let st3 : EngSt := { st2 with cache := cache3 }
    let vis' := vis.erase nodeId
    match slookup result "out" with
    | some outVal => (.ok outVal, st3, vis', cnt)
    | none => (.error (.operationError nodeId "Operation produced no \x27out\x27 output"), st3, vis', cnt)

/-- `Engine::execute_node`, by recursion on fuel.  Steps in source order:
cache lookup, cycle check, registration on the visiting stack, node
lookup, argument resolution, operation dispatch (with the placeholder
error rewrite), and `finishNode` for the rest. -/
def executeNode (g : Graph) : Nat → String → EngSt → List String → Option EngOut
  | 0, _, _, _ => none
  | fuel + 1, nodeId, st, vis =>
    match slookup st.cache nodeId with
    | some cached => some (.ok cached, st, vis, 0)
    | none =>
      if nodeId ∈ vis then some (.error (.cycleDetected nodeId), st, vis, 0)
      else
        match slookup g.nodes nodeId with
        | none => some (.error (.nodeNotFound nodeId), st, nodeId :: vis, 0)
        | some node =>
          match resolveArgsF (executeNode g fuel) nodeId node.get_all_typed_args
              [] st (nodeId :: vis) with
          | none => none
          | some (.error e, st2, vis2, c) => some (.error e, st2, vis2, c)
          | some (.ok resolvedArgs, st2, vis2, c1) =>
            match execOp fuel node.op resolvedArgs with
            | none => none
            | some (.error e, c2) =>
              some (.error (rewriteNodeError nodeId e), st2, vis2, c1 + c2)
            | some (.ok result, c2) =>
              some (finishNode nodeId node result st2 vis2 (c1 + c2))

/-- The empty engine state (`Engine::new`). -/
def EngSt.empty : EngSt := ⟨[], []⟩

/-- `resolve(node_id)` on a fresh engine: evaluate one node starting from
an empty cache and an empty visiting set, projecting the value/error. -/
def resolveValue (g : Graph) (fuel : Nat) (nodeId : String) : Option (Except Error Json) :=
  (executeNode g fuel nodeId EngSt.empty []).map (·.1)

/-- As `resolveValue`, but from a given state (a reused engine); also
exposes the invocation count. -/
def resolveFrom (g : Graph) (fuel : Nat) (nodeId : String) (st : EngSt) :
    Option (Except Error Json × EngSt × Nat) :=
  (executeNode g fuel nodeId st []).map (fun o => (o.1, o.2.1, o.2.2.2))

/-! ## Concrete graphs for the scenarios and counterexamples -/

/-- A typed reference port `{"ref": r, "type": t}`. -/
def refPort (r t : String) : Json := .obj [("ref", .str r), ("type", .str t)]

/-- A typed literal port `{"literal": v, "type": t}`. -/
def litPort (v : Json) (t : String) : Json := .obj [("literal", v), ("type", .str t)]

/-- Scenario S1 — arithmetic chain `a = 2`, `b = 3`, `s = Add(a, b)`. -/
def s1Graph : Graph :=
  ⟨[("a", ⟨"Const", some .number, [("value", litPort (.num 2) "Number")]⟩),
    ("b", ⟨"Const", some .number, [("value", litPort (.num 3) "Number")]⟩),
    ("s", ⟨"Add", some .number,
      [("a", refPort "a" "Number"), ("b", refPort "b" "Number")]⟩)]⟩

/-- Scenario S2 — the two-node cycle `x → y → x` through `Const` ports. -/
def s2Graph : Graph :=
  ⟨[("x", ⟨"Const", some .number, [("value", refPort "y" "Number")]⟩),
    ("y", ⟨"Const", some .number, [("value", refPort "x" "Number")]⟩)]⟩

/-- Scenario S4 — division by zero: `z = 0`, `o = 1`, `d = Div(o, z)`. -/
def s4Graph : Graph :=
  ⟨[("z", ⟨"Const", some .number, [("value", litPort (.num 0) "Number")]⟩),
    ("o", ⟨"Const", some .number, [("value", litPort (.num 1) "Number")]⟩),
    ("d", ⟨"Div", some .number,
      [("a", refPort "o" "Number"), ("b", refPort "z" "Number")]⟩)]⟩

/-- Scenario S5 — `Map` with static params: `L = [1,2,3]`,
`M = Map(list=L, apply_op="Add", arg="a", params={"b":10})`. -/
def s5Graph : Graph :=
  ⟨[("L", ⟨"Const", some (.array .number),
      [("value", litPort (.arr [.num 1, .num 2, .num 3]) "Array<Number>")]⟩),
    ("M", ⟨"Map", some (.array .number),
      [("list", refPort "L" "Array<Number>"),
       ("apply_op", litPort (.str "Add") "String"),
       ("arg", litPort (.str "a") "String"),
       ("params", litPort (.obj [("b", .num 10)]) "Any")]⟩)]⟩

/-- Counterexample graph for C1: executing `y` (a routing `Switch`) writes
the composite cache key `"y:true"`, which is also the node-id of a node
declared to return `Number`, with a `String` value. -/
def colGraph1 : Graph :=
  ⟨[("y", ⟨"Switch", none,
      [("cond", litPort (.bool true) "Boolean"),
       ("data", litPort (.str "hello") "String")]⟩),
    ("y:true", ⟨"Const", some .number, [("value", litPort (.num 0) "Number")]⟩)]⟩

/-- Counterexample graph for C2: resolving `a` fails (`Nope` is not a
registered operation) after its argument executed the routing `Switch`
node `a:b`, whose composite write `"a:b:true"` is also the composite key
`"a" ++ ":" ++ "b:true"` of the failing node `a`. -/
def colGraph2 : Graph :=
  ⟨[("a", ⟨"Nope", none, [("x", refPort "a:b" "Any")]⟩),
    ("a:b", ⟨"Switch", none,
      [("cond", litPort (.bool true) "Boolean"),
       ("data", litPort (.num 5) "Number")]⟩)]⟩

/-- Counterexample graph for C3: the cycle `x → y → x` exists, but node
`y` carries an argument port `bad` whose JSON (`1`) does not decode into
a `TypedValue`, and that port is resolved before the cycle edge. -/
def cycGraph : Graph :=
  ⟨[("x", ⟨"Const", some .number, [("value", refPort "y" "Number")]⟩),
    ("y", ⟨"Const", some .number,
      [("bad", .num 1), ("value", refPort "x" "Number")]⟩)]⟩

/-! ## Predicates used by the claims -/

/-- A node-id free of the `:` character, so that it can never collide
with a composite cache key `"<id>:<port>"`. -/
def noColon (s : String) : Prop := ':' ∉ s.data

/-- All node-ids of the graph are free of `:` (rules out collisions
between bare node-ids and composite cache keys). -/
def colonFree (g : Graph) : Prop := ∀ kv ∈ g.nodes, noColon kv.1

/-- The type-soundness cache invariant of claim C1: every cache entry
indexed by a bare node-id whose node declares a return type matches that
type. -/
def CacheTyped (g : Graph) (st : EngSt) : Prop :=
  ∀ id n T v, slookup g.nodes id = some n → n.returns = some T →
    slookup st.cache id = some v → T.matches v = true

/-- Bookkeeping relation for one evaluation step: every cache key whose
binding changed is either the bare id of a graph node outside the entry
visiting set — and then, if that node declares a return type, the final
binding matches it — or a composite key `"<m>:<p>"` of such a node. -/
def EvolveOK (g : Graph) (vis : List String) (st st' : EngSt) : Prop :=
  ∀ k, slookup st'.cache k ≠ slookup st.cache k →
    (∃ n node, slookup g.nodes n = some node ∧ n ∉ vis ∧ k = n ∧
      (∀ T, node.returns = some T → ∃ v, slookup st'.cache k = some v ∧ T.matches v = true))
    ∨ (∃ m p, (slookup g.nodes m).isSome ∧ m ∉ vis ∧ k = m ++ ":" ++ p)

/-- Hypothesis bundle for the recursive entry point threaded through the
argument-resolution helpers: every call grows the visiting set
monotonically and evolves the cache through `EvolveOK`. -/
def RecurOK (g : Graph) (recur : String → EngSt → List String → Option EngOut) : Prop :=
  ∀ m st vis r st' vis' c, recur m st vis = some (r, st', vis', c) →
    vis ⊆ vis' ∧ EvolveOK g vis st st'

/-- Spec-side definition for claim C6 (spec §4.3, Map): the input map
synthesised for one element — the key-value pairs of `params` overlaid
with `{arg: element}`, the item key overriding any same-named static
param. -/
def specMapElemInputs (params : List (String × Json)) (argKey : String) (item : Json) :
    List (String × Json) :=
  sinsert (buildParams params) argKey item

/-- Spec-side definition for claim C6: the collected value for one
element — the `"out"` entry of the inner operation's output map, JSON
null when the inner operation produced no `"out"`. -/
def specMapCollect (m : List (String × Json)) : Json :=
  (slookup m "out").getD .null

/-- Engine state after scenario S1 has resolved node `s` (used as a
concrete instantiation in witnesses). -/
def s1After : EngSt :=
  ⟨[("a", .num 2), ("b", .num 3), ("s", .num 5)],
   [("a", .number), ("b", .number), ("s", .number)]⟩

/-- A reference edge of the graph: node `a` has a decodable argument
port referring to node `b` (claim C3). -/
def HasRefEdge (g : Graph) (a b : String) : Prop :=
  ∃ node port T, slookup g.nodes a = some node
    ∧ (port, some (TypedValue.reference b T)) ∈ node.get_all_typed_args

/-- A successor-closed set of node-ids: every member has a reference
edge to a member.  Every directed cycle is such a set, and every node on
a directed cycle belongs to one (the cycle itself). -/
def SuccClosed (g : Graph) (S : List String) : Prop :=
  ∀ a ∈ S, ∃ b ∈ S, HasRefEdge g a b

/-- No member of `S` has a result-cache entry. -/
def Uncached (S : List String) (st : EngSt) : Prop :=
  ∀ s ∈ S, slookup st.cache s = none

/-! ## Theorems.  First: the computable rational operations agree with
Mathlib's field operations on `ℚ`. -/

theorem qadd_eq_add (a b : ℚ) : qadd a b = a + b := (Rat.add_def' a b).symm

theorem qsub_eq_sub (a b : ℚ) : qsub a b = a - b := (Rat.sub_def' a b).symm

theorem qmul_eq_mul (a b : ℚ) : qmul a b = a * b := by
  rw [Rat.mul_def, Rat.normalize_eq_mkRat, qmul]

theorem qinv_eq_inv (b : ℚ) : qinv b = b⁻¹ := by
  show qinv b = b.inv
  rw [Rat.inv_def, qinv]

theorem qdiv_eq_div (a b : ℚ) : qdiv a b = a / b := by
  rw [Rat.div_def, qdiv, qmul_eq_mul, qinv_eq_inv]
  rfl

/-! ## Association-list lemmas -/

theorem slookup_sinsert {α : Type} (m : List (String × α)) (k : String) (v : α) :
    slookup (sinsert m k v) k = some v := by
  induction m with
  | nil => simp [sinsert, slookup]
  | cons kv rest ih =>
    obtain ⟨k', w⟩ := kv
    by_cases h : k' = k
    · simp [sinsert, h, slookup]
    · simp [sinsert, h, slookup, ih]

theorem slookup_sinsert_ne {α : Type} (m : List (String × α)) (k k' : String) (v : α)
    (h : k ≠ k') : slookup (sinsert m k v) k' = slookup m k' := by
  induction m with
  | nil => simp [sinsert, slookup, h]
  | cons kv rest ih =>
    obtain ⟨k0, w⟩ := kv
    by_cases h0 : k0 = k
    · subst h0
      simp [sinsert, slookup, h, Ne.symm h]
    · by_cases h1 : k0 = k'
      · subst h1
        simp [sinsert, h0, slookup]
      · simp [sinsert, h0, slookup, h1, ih]

/-! ## C8: parse/display round-trip -/

theorem dropWhile_length_le (p : Char → Bool) : ∀ l : List Char,
    (List.dropWhile p l).length ≤ l.length
  | [] => Nat.le_refl _
  | c :: rest => by
    simp only [List.dropWhile]
    split
    · exact Nat.le_trans (dropWhile_length_le p rest) (Nat.le_succ _)
    · exact Nat.le_refl _

theorem trimChars_length_le (l : List Char) : (trimChars l).length ≤ l.length := by
  have h2 := dropWhile_length_le isWS l
  have h3 := dropWhile_length_le isWS (l.dropWhile isWS).reverse
  simp only [trimChars, List.length_reverse]
  simp only [List.length_reverse] at h3
  omega

theorem parseTypeAux_irrel (f : Nat) : ∀ (f' : Nat) (l : List Char),
    l.length < f → l.length < f' → parseTypeAux f l = parseTypeAux f' l := by
  induction f using Nat.strong_induction_on with
  | _ f ih =>
    intro f' l hf hf'
    match f, hf with
    | g + 1, hf =>
      match f', hf' with
      | g' + 1, hf' =>
        simp only [parseTypeAux]
        split_ifs
        · rfl
        · rfl
        · rfl
        · rfl
        · rfl
        · split
          · next rest heq =>
            have hlen : rest.length + 6 = (trimChars l).length := by
              rw [heq]; simp
            have htl := trimChars_length_le l
            split_ifs
            · have hd : rest.dropLast.length < l.length := by
                simp only [List.length_dropLast]
                omega
              rw [ih g (by omega) g' rest.dropLast (by omega) (by omega)]
            · rfl
          · rfl

theorem dropWhile_eq_self_of_none {p : Char → Bool} {l : List Char}
    (h : ∀ c ∈ l, p c = false) : l.dropWhile p = l := by
  cases l with
  | nil => rfl
  | cons c rest => simp [List.dropWhile, h c (by simp)]

theorem trimChars_eq_self {l : List Char} (h : ∀ c ∈ l, isWS c = false) :
    trimChars l = l := by
  unfold trimChars
  rw [dropWhile_eq_self_of_none h]
  rw [dropWhile_eq_self_of_none (by intro c hc; exact h c (by simpa using hc))]
  simp

theorem displayL_nonWS : ∀ (T : SpellType), ∀ c ∈ T.displayL, isWS c = false := by
  intro T
  induction T with
  | number => decide
  | string => decide
  | boolean => decide
  | any => decide
  | unit => decide
  | array inner ih =>
    intro c hc
    simp only [SpellType.displayL, List.mem_append] at hc
    rcases hc with (hc | hc) | hc
    · revert hc; revert c; decide
    · exact ih c hc
    · revert hc; revert c; decide

theorem parse_displayL_aux :
    ∀ (T : SpellType) (g : Nat), T.displayL.length ≤ g →
      parseTypeAux (g + 1) T.displayL = .ok T := by
  intro T
  induction T with
  | number => intro g hg; rfl
  | string => intro g hg; rfl
  | boolean => intro g hg; rfl
  | any => intro g hg; rfl
  | unit => intro g hg; rfl
  | array inner ih =>
    intro g hg
    have hshape : SpellType.displayL (.array inner)
        = 'A' :: 'r' :: 'r' :: 'a' :: 'y' :: '<' :: (inner.displayL ++ ['>']) := by
      simp [SpellType.displayL]
    have htrim : trimChars (SpellType.displayL (.array inner))
        = SpellType.displayL (.array inner) :=
      trimChars_eq_self (displayL_nonWS _)
    simp only [parseTypeAux]
    rw [htrim, hshape]
    have hne : ∀ (s : List Char), s.head? ≠ some 'A' →
        ('A' :: 'r' :: 'r' :: 'a' :: 'y' :: '<' :: (inner.displayL ++ ['>'])) ≠ s := by
      intro s hs h
      apply hs
      rw [← h]
      rfl
    rw [if_neg (hne _ (by decide)), if_neg (hne _ (by decide)), if_neg (hne _ (by decide)),
      if_neg ?hany, if_neg (hne _ (by decide))]
    case hany =>
      intro h
      have := congrArg List.length h
      simp at this
    show (if (inner.displayL ++ ['>']).getLast? = some '>' then
        (parseTypeAux g (inner.displayL ++ ['>']).dropLast).map SpellType.array
      else _) = _
    rw [List.getLast?_concat, if_pos rfl, List.dropLast_concat]
    have hlen : (SpellType.displayL (.array inner)).length = inner.displayL.length + 7 := by
      rw [hshape]; simp
    match g, hg with
    | g' + 1, hg =>
      rw [ih g' (by rw [hlen] at hg; omega)]
      rfl

/-- Claim C8: for every type `T` in the closed set (`Number`, `String`,
`Boolean`, `Unit`, `Any`, and `Array<T>` recursively), `SpellType::parse`
applied to the `Display` rendering of `T` returns `Ok(T)`. -/
theorem spellType_parse_display_roundtrip :
    ∀ T : SpellType, SpellType.parse T.display = .ok T := by
  intro T
  show parseTypeAux (T.displayL.length + 1) T.displayL = .ok T
  exact parse_displayL_aux T T.displayL.length (Nat.le_refl _)

/-! ## C7: division by zero -/

/-- Claim C7: `Div` with numeric inputs and `b == 0` yields
`OperationError("Division by zero")` with the placeholder node, and the
engine rewrites the placeholder with the real node-id, so in scenario S4
`resolve("d")` fails with `OperationError{node:"d", reason:"Division by
zero"}`. -/
theorem div_by_zero_reported :
    (∀ (inputs : List (String × Json)) (a : ℚ),
      slookup inputs "a" = some (.num a) → slookup inputs "b" = some (.num 0) →
      MathOp.execute .div inputs = .error (.operationError "unknown" "Division by zero"))
    ∧ resolveValue s4Graph 6 "d" = some (.error (.operationError "d" "Division by zero")) := by
  constructor
  · intro inputs a ha hb
    simp [MathOp.execute, get_f64, get_input, ha, hb, Json.asF64]
  · rfl

/-- Witness for C7 at concrete inputs. -/
theorem div_by_zero_reported_witness :
    MathOp.execute .div [("a", Json.num 1), ("b", Json.num 0)]
      = .error (.operationError "unknown" "Division by zero")
    ∧ resolveValue s4Graph 6 "d" = some (.error (.operationError "d" "Division by zero")) :=
  ⟨div_by_zero_reported.1 [("a", Json.num 1), ("b", Json.num 0)] 1 rfl rfl,
   div_by_zero_reported.2⟩

/-! ## C4: cache idempotence -/

theorem append_colon_ne (a p : String) : a ++ ":" ++ p ≠ a := by
  intro h
  have h2 := congrArg String.length h
  rw [String.length_append, String.length_append] at h2
  have h3 : ":".length = 1 := rfl
  omega

theorem slookup_compositeFold (nodeId k : String) (result : List (String × Json))
    (cache : List (String × Json)) (h : ∀ p, k ≠ nodeId ++ ":" ++ p) :
    slookup (result.foldl
      (fun c pv => if pv.1 = "out" then c else sinsert c (nodeId ++ ":" ++ pv.1) pv.2)
      cache) k = slookup cache k := by
  induction result generalizing cache with
  | nil => rfl
  | cons pv rest ih =>
    simp only [List.foldl_cons]
    rw [ih]
    split
    · rfl
    · exact slookup_sinsert_ne _ _ _ _ (fun he => absurd he.symm (h pv.1))

example : True := trivial

theorem finishNode_ok_cached {nodeId : String} {node : Node}
    {result : List (String × Json)} {st : EngSt} {vis : List String} {cnt : Nat}
    {v : Json} {st' : EngSt} {vis' : List String} {c : Nat}
    (h : finishNode nodeId node result st vis cnt = (.ok v, st', vis', c)) :
    slookup st'.cache nodeId = some v := by
  simp only [finishNode] at h
  split at h
  · simp at h
  · split at h
    · next outVal heq =>
      simp only [Prod.mk.injEq] at h
      obtain ⟨hv, hst, -, -⟩ := h
      cases hv
      subst hst
      rw [slookup_compositeFold _ _ _ _ (fun p => append_colon_ne nodeId p ∘ Eq.symm)]
      exact slookup_sinsert _ _ _
    · simp at h

theorem executeNode_ok_cached {g : Graph} {fuel : Nat} {id : String} {st : EngSt}
    {vis : List String} {v : Json} {st' : EngSt} {vis' : List String} {c : Nat}
    (h : executeNode g fuel id st vis = some (.ok v, st', vis', c)) :
    slookup st'.cache id = some v := by
  match fuel with
  | 0 => simp [executeNode] at h
  | f + 1 =>
    simp only [executeNode] at h
    split at h
    · next cached heq =>
      simp only [Option.some.injEq, Prod.mk.injEq] at h
      obtain ⟨hv, hst, -, -⟩ := h
      cases hv
      subst hst
      exact heq
    · split at h
      · simp at h
      · split at h
        · simp at h
        · split at h
          · simp at h
          · simp at h
          · split at h
            · simp at h
            · simp at h
            · simp only [Option.some.injEq] at h
              exact finishNode_ok_cached h

/-- Claim C4: if `execute_node` succeeds with value `v`, a subsequent
`resolve` of the same node on the same engine returns the same value
`v`, leaves the state untouched, and performs zero `Operation::execute`
invocations (it is answered entirely from the result cache).  `Print` is
value-deterministic in the model (its stdout write is not modelled), so
this holds for every node. -/
theorem cache_idempotence (g : Graph) (fuel fuel' : Nat) (id : String) (st : EngSt)
    (vis : List String) (v : Json) (st' : EngSt) (vis' : List String) (c : Nat)
    (h : executeNode g fuel id st vis = some (.ok v, st', vis', c)) :
    executeNode g (fuel' + 1) id st' [] = some (.ok v, st', [], 0) := by
  have hc := executeNode_ok_cached h
  simp [executeNode, hc]

/-- Witness for C4: scenario S1 — the first resolve of `s` executes three
operations and returns 5; the second returns 5 from the cache with zero
executions. -/
theorem cache_idempotence_witness :
    executeNode s1Graph 6 "s" EngSt.empty [] = some (.ok (.num 5), s1After, [], 3)
    ∧ executeNode s1Graph 7 "s" s1After [] = some (.ok (.num 5), s1After, [], 0) :=
  ⟨rfl, cache_idempotence s1Graph 6 6 "s" EngSt.empty [] (.num 5) s1After [] 3 rfl⟩

/-! ## C5: the `arg` port of Map/Filter -/

/-- Counterexample to claim C5 as stated: with the `arg` port absent,
`Map` (and `Filter`) do not fall back to a default item key — they fail
with `MissingInput("arg")` (here on the empty list with a known
`apply_op`, so nothing else can fail first). -/
theorem map_filter_absent_arg_counterexample :
    execOp 5 "Map" [("list", .arr []), ("apply_op", .str "Add")]
      = some (.error (.missingInput "unknown" "arg"), 1)
    ∧ execOp 5 "Filter" [("list", .arr []), ("apply_op", .str "Gt")]
      = some (.error (.missingInput "unknown" "arg"), 1) :=
  ⟨rfl, rfl⟩

theorem get_input_sinsert_ne (m : List (String × Json)) (k n : String) (v : Json)
    (h : k ≠ n) : get_input (sinsert m k v) n = get_input m n := by
  simp [get_input, slookup_sinsert_ne _ _ _ _ h]

/-- Claim C5 as amended: the hard-coded default item keys (`"in"` for
Map, `"a"` for Filter) apply when the `arg` port is *present but not a
string* — the operation then behaves exactly as if `arg` were that
default; when `arg` is *absent*, both operations fail with
`MissingInput("arg")` instead of falling back. -/
theorem map_filter_default_arg_amended :
    (∀ (runOp : RunOp) (inputs : List (String × Json)) (xs : List Json) (s : String),
      slookup inputs "list" = some (.arr xs) →
      slookup inputs "apply_op" = some (.str s) →
      slookup inputs "arg" = none →
      MapOp.execute runOp inputs = some (.error (.missingInput "unknown" "arg"), 0))
    ∧ (∀ (runOp : RunOp) (inputs : List (String × Json)) (w : Json),
      slookup inputs "arg" = some w → w.asStr = none →
      MapOp.execute runOp inputs = MapOp.execute runOp (sinsert inputs "arg" (.str "in")))
    ∧ (∀ (runOp : RunOp) (inputs : List (String × Json)) (xs : List Json) (s : String),
      slookup inputs "list" = some (.arr xs) →
      slookup inputs "apply_op" = some (.str s) →
      slookup inputs "arg" = none →
      FilterOp.execute runOp inputs = some (.error (.missingInput "unknown" "arg"), 0))
    ∧ (∀ (runOp : RunOp) (inputs : List (String × Json)) (w : Json),
      slookup inputs "arg" = some w → w.asStr = none →
      FilterOp.execute runOp inputs = FilterOp.execute runOp (sinsert inputs "arg" (.str "a"))) := by
  refine ⟨?_, ?_, ?_, ?_⟩
  · intro runOp inputs xs s hl ho ha
    simp [MapOp.execute, get_input, hl, ho, ha, Json.asArr, Json.asStr]
  · intro runOp inputs w hw hws
    have h1 : slookup (sinsert inputs "arg" (Json.str "in")) "list" = slookup inputs "list" :=
      slookup_sinsert_ne _ _ _ _ (by decide)
    have h2 : slookup (sinsert inputs "arg" (Json.str "in")) "apply_op"
        = slookup inputs "apply_op" := slookup_sinsert_ne _ _ _ _ (by decide)
    have h3 : slookup (sinsert inputs "arg" (Json.str "in")) "arg" = some (.str "in") :=
      slookup_sinsert _ _ _
    have h4 : slookup (sinsert inputs "arg" (Json.str "in")) "params" = slookup inputs "params" :=
      slookup_sinsert_ne _ _ _ _ (by decide)
    have h5 : (Json.str "in").asStr = some "in" := rfl
    simp only [MapOp.execute, getStaticParams, get_input, h1, h2, h3, h4, hw, hws, h5,
      Option.getD_some, Option.getD_none]
  · intro runOp inputs xs s hl ho ha
    simp [FilterOp.execute, get_input, hl, ho, ha, Json.asArr, Json.asStr]
  · intro runOp inputs w hw hws
    have h1 : slookup (sinsert inputs "arg" (Json.str "a")) "list" = slookup inputs "list" :=
      slookup_sinsert_ne _ _ _ _ (by decide)
    have h2 : slookup (sinsert inputs "arg" (Json.str "a")) "apply_op"
        = slookup inputs "apply_op" := slookup_sinsert_ne _ _ _ _ (by decide)
    have h3 : slookup (sinsert inputs "arg" (Json.str "a")) "arg" = some (.str "a") :=
      slookup_sinsert _ _ _
    have h4 : slookup (sinsert inputs "arg" (Json.str "a")) "params" = slookup inputs "params" :=
      slookup_sinsert_ne _ _ _ _ (by decide)
    have h5 : (Json.str "a").asStr = some "a" := rfl
    simp only [FilterOp.execute, getStaticParams, get_input, h1, h2, h3, h4, hw, hws, h5,
      Option.getD_some, Option.getD_none]

/-- Witness for the amended C5 at concrete inputs. -/
theorem map_filter_default_arg_amended_witness :
    MapOp.execute (execOp 4) [("list", .arr []), ("apply_op", .str "Add")]
      = some (.error (.missingInput "unknown" "arg"), 0)
    ∧ MapOp.execute (execOp 4) [("list", .arr [.num 1]), ("apply_op", .str "Add"), ("arg", .null)]
      = MapOp.execute (execOp 4)
          (sinsert [("list", .arr [.num 1]), ("apply_op", .str "Add"), ("arg", .null)] "arg" (.str "in"))
    ∧ FilterOp.execute (execOp 4) [("list", .arr []), ("apply_op", .str "Gt")]
      = some (.error (.missingInput "unknown" "arg"), 0)
    ∧ FilterOp.execute (execOp 4) [("list", .arr [.num 1]), ("apply_op", .str "Gt"), ("arg", .bool true)]
      = FilterOp.execute (execOp 4)
          (sinsert [("list", .arr [.num 1]), ("apply_op", .str "Gt"), ("arg", .bool true)] "arg" (.str "a")) :=
  ⟨map_filter_default_arg_amended.1 (execOp 4) _ [] "Add" rfl rfl rfl,
   map_filter_default_arg_amended.2.1 (execOp 4) _ .null rfl rfl,
   map_filter_default_arg_amended.2.2.1 (execOp 4) _ [] "Gt" rfl rfl rfl,
   map_filter_default_arg_amended.2.2.2 (execOp 4) _ (.bool true) rfl rfl⟩

/-! ## C10: registry lookup precedes element iteration -/

/-- Counterexample to claim C10 as stated: an input map whose `apply_op`
is unknown does not necessarily fail with `UnknownOperation` — `Reduce`
requires `initial` (and `acc_arg`, `item_arg`) first, so with only
`list` and `apply_op` bound it fails with `MissingInput("initial")`. -/
theorem registry_before_iteration_counterexample :
    execOp 5 "Reduce" [("list", .arr []), ("apply_op", .str "Nope")]
      = some (.error (.missingInput "unknown" "initial"), 1) := rfl

/-- Claim C10 as amended: when the operation's other required ports are
present and well-shaped, an `apply_op` absent from the registry makes
`Map`, `Reduce` and `Filter` fail with `UnknownOperation(apply_op)` even
on the empty list; conversely with a known `apply_op` and empty `list`
the inner operation is never invoked (count 0) and Map/Filter emit
`out = []` while Reduce emits `out = initial`. -/
theorem registry_before_iteration_amended :
    (∀ (runOp : RunOp) (inputs : List (String × Json)) (xs : List Json) (s : String)
      (a : Json) (ps : List (String × Json)),
      slookup inputs "list" = some (.arr xs) →
      slookup inputs "apply_op" = some (.str s) →
      slookup inputs "arg" = some a →
      getStaticParams "Map" inputs = .ok ps →
      Ops.known s = false →
      MapOp.execute runOp inputs = some (.error (.unknownOperation s), 0))
    ∧ (∀ (runOp : RunOp) (inputs : List (String × Json)) (xs : List Json) (s : String)
      (init acc item : Json),
      slookup inputs "list" = some (.arr xs) →
      slookup inputs "apply_op" = some (.str s) →
      slookup inputs "initial" = some init →
      slookup inputs "acc_arg" = some acc →
      slookup inputs "item_arg" = some item →
      Ops.known s = false →
      ReduceOp.execute runOp inputs = some (.error (.unknownOperation s), 0))
    ∧ (∀ (runOp : RunOp) (inputs : List (String × Json)) (xs : List Json) (s : String)
      (a : Json) (ps : List (String × Json)),
      slookup inputs "list" = some (.arr xs) →
      slookup inputs "apply_op" = some (.str s) →
      slookup inputs "arg" = some a →
      getStaticParams "Filter" inputs = .ok ps →
      Ops.known s = false →
      FilterOp.execute runOp inputs = some (.error (.unknownOperation s), 0))
    ∧ (∀ (runOp : RunOp) (inputs : List (String × Json)) (s : String)
      (a : Json) (ps : List (String × Json)),
      slookup inputs "list" = some (.arr []) →
      slookup inputs "apply_op" = some (.str s) →
      slookup inputs "arg" = some a →
      getStaticParams "Map" inputs = .ok ps →
      Ops.known s = true →
      MapOp.execute runOp inputs = some (.ok (sinsert [] "out" (.arr [])), 0))
    ∧ (∀ (runOp : RunOp) (inputs : List (String × Json)) (s : String)
      (init acc item : Json),
      slookup inputs "list" = some (.arr []) →
      slookup inputs "apply_op" = some (.str s) →
      slookup inputs "initial" = some init →
      slookup inputs "acc_arg" = some acc →
      slookup inputs "item_arg" = some item →
      Ops.known s = true →
      ReduceOp.execute runOp inputs = some (.ok (sinsert [] "out" init), 0))
    ∧ (∀ (runOp : RunOp) (inputs : List (String × Json)) (s : String)
      (a : Json) (ps : List (String × Json)),
      slookup inputs "list" = some (.arr []) →
      slookup inputs "apply_op" = some (.str s) →
      slookup inputs "arg" = some a →
      getStaticParams "Filter" inputs = .ok ps →
      Ops.known s = true →
      FilterOp.execute runOp inputs = some (.ok (sinsert [] "out" (.arr [])), 0)) := by
  refine ⟨?_, ?_, ?_, ?_, ?_, ?_⟩
  · intro runOp inputs xs s a ps hl ho ha hp hk
    simp [MapOp.execute, get_input, hl, ho, ha, hp, hk, Json.asArr, Json.asStr]
  · intro runOp inputs xs s init acc item hl ho hi hacc hitem hk
    simp [ReduceOp.execute, get_input, hl, ho, hi, hacc, hitem, hk, Json.asArr, Json.asStr]
  · intro runOp inputs xs s a ps hl ho ha hp hk
    simp [FilterOp.execute, get_input, hl, ho, ha, hp, hk, Json.asArr, Json.asStr]
  · intro runOp inputs s a ps hl ho ha hp hk
    simp [MapOp.execute, get_input, hl, ho, ha, hp, hk, Json.asArr, Json.asStr, mapLoop]
  · intro runOp inputs s init acc item hl ho hi hacc hitem hk
    simp [ReduceOp.execute, get_input, hl, ho, hi, hacc, hitem, hk, Json.asArr, Json.asStr,
      reduceLoop]
  · intro runOp inputs s a ps hl ho ha hp hk
    simp [FilterOp.execute, get_input, hl, ho, ha, hp, hk, Json.asArr, Json.asStr, filterLoop]

/-- Witness for the amended C10 at concrete inputs. -/
theorem registry_before_iteration_amended_witness :
    MapOp.execute (execOp 4) [("list", .arr []), ("apply_op", .str "Nope"), ("arg", .str "a")]
      = some (.error (.unknownOperation "Nope"), 0)
    ∧ ReduceOp.execute (execOp 4)
        [("list", .arr []), ("apply_op", .str "Nope"), ("initial", .num 7),
         ("acc_arg", .str "a"), ("item_arg", .str "b")]
      = some (.error (.unknownOperation "Nope"), 0)
    ∧ FilterOp.execute (execOp 4) [("list", .arr []), ("apply_op", .str "Nope"), ("arg", .str "a")]
      = some (.error (.unknownOperation "Nope"), 0)
    ∧ MapOp.execute (execOp 4) [("list", .arr []), ("apply_op", .str "Add"), ("arg", .str "a")]
      = some (.ok (sinsert [] "out" (.arr [])), 0)
    ∧ ReduceOp.execute (execOp 4)
        [("list", .arr []), ("apply_op", .str "Add"), ("initial", .num 7),
         ("acc_arg", .str "a"), ("item_arg", .str "b")]
      = some (.ok (sinsert [] "out" (.num 7)), 0)
    ∧ FilterOp.execute (execOp 4) [("list", .arr []), ("apply_op", .str "Gt"), ("arg", .str "a")]
      = some (.ok (sinsert [] "out" (.arr [])), 0) :=
  ⟨registry_before_iteration_amended.1 (execOp 4) _ [] "Nope" (.str "a") [] rfl rfl rfl rfl rfl,
   registry_before_iteration_amended.2.1 (execOp 4) _ [] "Nope" (.num 7) (.str "a") (.str "b")
     rfl rfl rfl rfl rfl rfl,
   registry_before_iteration_amended.2.2.1 (execOp 4) _ [] "Nope" (.str "a") [] rfl rfl rfl rfl rfl,
   registry_before_iteration_amended.2.2.2.1 (execOp 4) _ "Add" (.str "a") [] rfl rfl rfl rfl rfl,
   registry_before_iteration_amended.2.2.2.2.1 (execOp 4) _ "Add" (.num 7) (.str "a") (.str "b")
     rfl rfl rfl rfl rfl rfl,
   registry_before_iteration_amended.2.2.2.2.2 (execOp 4) _ "Gt" (.str "a") [] rfl rfl rfl rfl rfl⟩

/-! ## C6: Map semantics -/

theorem mapLoop_spec (runOp : RunOp) (opName itemArg : String)
    (params : List (String × Json)) : ∀ (xs : List Json) (ys : List Json) (c : Nat),
    mapLoop runOp opName itemArg params xs = some (.ok ys, c) →
    ys.length = xs.length ∧
    ∀ i (hx : i < xs.length) (hy : i < ys.length),
      ∃ m cc, runOp opName (specMapElemInputs params itemArg (xs.get ⟨i, hx⟩))
          = some (.ok m, cc)
        ∧ ys.get ⟨i, hy⟩ = specMapCollect m := by
  intro xs
  induction xs with
  | nil =>
    intro ys c h
    simp only [mapLoop, Option.some.injEq, Prod.mk.injEq] at h
    obtain ⟨hys, -⟩ := h
    cases hys
    exact ⟨rfl, fun i hx hy => absurd hx (by simp)⟩
  | cons item rest ih =>
    intro ys c h
    simp only [mapLoop] at h
    split at h
    · simp at h
    · simp at h
    · next m cm heq =>
      split at h
      · simp at h
      · simp at h
      · next vs c' heq' =>
        simp only [Option.some.injEq, Prod.mk.injEq] at h
        obtain ⟨hys, -⟩ := h
        cases hys
        obtain ⟨hlen, hpt⟩ := ih vs c' heq'
        refine ⟨by simp [hlen], ?_⟩
        intro i hx hy
        match i with
        | 0 => exact ⟨m, cm, heq, rfl⟩
        | i + 1 =>
          exact hpt i (by simpa using hx) (by simpa using hy)

/-- Claim C6: for each element of `list` in input order, `Map` builds the
input map `params` (default empty) overlaid with `{arg: element}` (item
key overriding same-named static params), executes `apply_op` through
the registry on it, and collects the `"out"` value (JSON null when the
inner op produced no `"out"`) into a JSON array in input order; for the
S5 graph, `resolve("M")` returns `[11,12,13]`. -/
theorem map_semantics :
    (∀ (runOp : RunOp) (inputs : List (String × Json)) (xs : List Json) (s a : String)
      (ps out : List (String × Json)) (c : Nat),
      slookup inputs "list" = some (.arr xs) →
      slookup inputs "apply_op" = some (.str s) →
      slookup inputs "arg" = some (.str a) →
      getStaticParams "Map" inputs = .ok ps →
      MapOp.execute runOp inputs = some (.ok out, c) →
      ∃ ys, out = sinsert [] "out" (.arr ys) ∧ ys.length = xs.length ∧
        ∀ i (hx : i < xs.length) (hy : i < ys.length),
          ∃ m cc, runOp s (specMapElemInputs ps a (xs.get ⟨i, hx⟩)) = some (.ok m, cc)
            ∧ ys.get ⟨i, hy⟩ = specMapCollect m)
    ∧ resolveValue s5Graph 8 "M" = some (.ok (.arr [.num 11, .num 12, .num 13])) := by
  constructor
  · intro runOp inputs xs s a ps out c hl ho ha hp hex
    simp only [MapOp.execute, get_input, hl, ho, ha, hp, Json.asArr, Json.asStr,
      Option.getD_some] at hex
    split at hex
    · split at hex
      · simp at hex
      · simp at hex
      · next vs cv heq =>
        simp only [Option.some.injEq, Prod.mk.injEq] at hex
        obtain ⟨hout, -⟩ := hex
        cases hout
        obtain ⟨hlen, hpt⟩ := mapLoop_spec runOp s a ps xs vs cv heq
        exact ⟨vs, rfl, hlen, hpt⟩
    · simp at hex
  · rfl

/-- Witness for C6: the S5 `Map` call at concrete inputs. -/
theorem map_semantics_witness :
    (∃ ys, sinsert [] "out" (Json.arr [.num 11, .num 12, .num 13])
        = sinsert [] "out" (.arr ys)
      ∧ ys.length = ([Json.num 1, Json.num 2, Json.num 3] : List Json).length
      ∧ ∀ i (hx : i < ([Json.num 1, Json.num 2, Json.num 3] : List Json).length)
          (hy : i < ys.length),
          ∃ m cc, execOp 4 "Add" (specMapElemInputs [("b", Json.num 10)] "a"
              (([Json.num 1, Json.num 2, Json.num 3] : List Json).get ⟨i, hx⟩))
            = some (.ok m, cc)
            ∧ ys.get ⟨i, hy⟩ = specMapCollect m)
    ∧ resolveValue s5Graph 8 "M" = some (.ok (.arr [.num 11, .num 12, .num 13])) :=
  ⟨map_semantics.1 (execOp 4)
      [("list", .arr [.num 1, .num 2, .num 3]), ("apply_op", .str "Add"),
       ("arg", .str "a"), ("params", .obj [("b", .num 10)])]
      [.num 1, .num 2, .num 3] "Add" "a" [("b", .num 10)]
      (sinsert [] "out" (.arr [.num 11, .num 12, .num 13])) 3
      rfl rfl rfl rfl rfl,
   map_semantics.2⟩

/-! ## State-evolution machinery for C1 and C2 -/

theorem slookup_mem {α : Type} : ∀ (m : List (String × α)) (k : String) (v : α),
    slookup m k = some v → (k, v) ∈ m := by
  intro m k v h
  induction m with
  | nil => simp [slookup] at h
  | cons kv rest ih =>
    obtain ⟨k0, w⟩ := kv
    simp only [slookup] at h
    split at h
    · next he => cases h; subst he; simp
    · simp [ih h]

theorem string_append_colon_data (a p : String) :
    (a ++ ":" ++ p).data = a.data ++ ':' :: p.data := by
  cases a with
  | mk la =>
    cases p with
    | mk lp => simp [String.data_append]

theorem noColon_ne_composite {a : String} (h : noColon a) (m p : String) :
    a ≠ m ++ ":" ++ p := by
  intro he
  apply h
  rw [he, string_append_colon_data]
  simp

theorem composite_inj {m id : String} (hm : noColon m) (hid : noColon id)
    {p q : String} (h : m ++ ":" ++ p = id ++ ":" ++ q) : m = id := by
  have hd : m.data ++ ':' :: p.data = id.data ++ ':' :: q.data := by
    rw [← string_append_colon_data, ← string_append_colon_data, h]
  have key : ∀ (x y : List Char) (px qx : List Char),
      (':' ∉ x) → (':' ∉ y) → x ++ ':' :: px = y ++ ':' :: qx → x = y := by
    intro x
    induction x with
    | nil =>
      intro y px qx hx hy hxy
      cases y with
      | nil => rfl
      | cons c ys =>
        simp only [List.nil_append, List.cons_append, List.cons.injEq] at hxy
        obtain ⟨hc, rest⟩ := hxy
        subst hc
        simp at hy
    | cons c xs ih =>
      intro y px qx hx hy hxy
      cases y with
      | nil =>
        simp only [List.cons_append, List.nil_append, List.cons.injEq] at hxy
        obtain ⟨hc, rest⟩ := hxy
        subst hc
        simp at hx
      | cons d ys =>
        simp only [List.cons_append, List.cons.injEq] at hxy
        obtain ⟨hc, rest⟩ := hxy
        subst hc
        have := ih ys px qx (by simp at hx; exact hx.2) (by simp at hy; exact hy.2) rest
        rw [this]
  have hk := key m.data id.data p.data q.data hm hid hd
  cases m
  cases id
  simp only at hk
  rw [hk]

theorem EvolveOK_refl (g : Graph) (vis : List String) (st : EngSt) :
    EvolveOK g vis st st := fun _ hk => absurd rfl hk

theorem EvolveOK_weaken {g : Graph} {vis vis' : List String} {st st' : EngSt}
    (hsub : vis ⊆ vis') (h : EvolveOK g vis' st st') : EvolveOK g vis st st' := by
  intro k hk
  rcases h k hk with ⟨n, node, hn, hnv, hkn, hval⟩ | ⟨m, p, hm, hmv, hkm⟩
  · exact Or.inl ⟨n, node, hn, fun hc => hnv (hsub hc), hkn, hval⟩
  · exact Or.inr ⟨m, p, hm, fun hc => hmv (hsub hc), hkm⟩

theorem EvolveOK_trans {g : Graph} {vis vis1 : List String} {st st1 st2 : EngSt}
    (h1 : EvolveOK g vis st st1) (h2 : EvolveOK g vis1 st1 st2) (hsub : vis ⊆ vis1) :
    EvolveOK g vis st st2 := by
  intro k hk
  by_cases hmid : slookup st2.cache k = slookup st1.cache k
  · have hne : slookup st1.cache k ≠ slookup st.cache k := fun he => hk (hmid.trans he)
    rcases h1 k hne with ⟨n, node, hn, hnv, hkn, hval⟩ | hro
    · refine Or.inl ⟨n, node, hn, hnv, hkn, fun T hT => ?_⟩
      obtain ⟨v, hv, hmv⟩ := hval T hT
      exact ⟨v, hmid.trans hv, hmv⟩
    · exact Or.inr hro
  · rcases h2 k hmid with ⟨n, node, hn, hnv, hkn, hval⟩ | ⟨m, p, hm, hmv, hkm⟩
    · exact Or.inl ⟨n, node, hn, fun hc => hnv (hsub hc), hkn, hval⟩
    · exact Or.inr ⟨m, p, hm, fun hc => hmv (hsub hc), hkm⟩

theorem checkReturn_ok_cache {nodeId : String} {node : Node}
    {result : List (String × Json)} {st st1 : EngSt}
    (heq : checkReturn nodeId node result st = .ok st1) : st1.cache = st.cache := by
  simp only [checkReturn] at heq
  split at heq
  · split at heq
    · cases heq
      rfl
    · cases heq
  · cases heq
    rfl

theorem checkReturn_ok_matches {nodeId : String} {node : Node}
    {result : List (String × Json)} {st st1 : EngSt} {T : SpellType} {outVal : Json}
    (hT : node.returns = some T) (hout : slookup result "out" = some outVal)
    (heq : checkReturn nodeId node result st = .ok st1) : T.matches outVal = true := by
  simp only [checkReturn, hT, hout] at heq
  split at heq
  · assumption
  · cases heq

theorem finishNode_evolve {g : Graph} {vis0 : List String} {nodeId : String} {node : Node}
    {result : List (String × Json)} {st : EngSt} {vis : List String} {cnt : Nat}
    {r : Except Error Json} {st' : EngSt} {vis' : List String} {c' : Nat}
    (hnode : slookup g.nodes nodeId = some node) (hvis : nodeId ∉ vis0)
    (h : finishNode nodeId node result st vis cnt = (r, st', vis', c')) :
    EvolveOK g vis0 st st' ∧ (vis' = vis ∨ vis' = vis.erase nodeId) := by
  simp only [finishNode] at h
  split at h
  · next e heq =>
    simp only [Prod.mk.injEq] at h
    obtain ⟨-, hst, hvis', -⟩ := h
    subst hst
    subst hvis'
    exact ⟨EvolveOK_refl g vis0 st, Or.inl rfl⟩
  · next st1 heq =>
    have hst1 : st1.cache = st.cache := checkReturn_ok_cache heq
    split at h
    · next outVal hout =>
      simp only [Prod.mk.injEq] at h
      obtain ⟨-, hst, hvis', -⟩ := h
      subst hst
      subst hvis'
      refine ⟨?_, Or.inr rfl⟩
      intro k hk
      by_cases hcomp : ∃ p, k = nodeId ++ ":" ++ p
      · obtain ⟨p, hp⟩ := hcomp
        exact Or.inr ⟨nodeId, p, by rw [hnode]; rfl, hvis, hp⟩
      · push_neg at hcomp
        rw [slookup_compositeFold _ _ _ _ hcomp] at hk ⊢
        by_cases hbare : k = nodeId
        · subst hbare
          refine Or.inl ⟨k, node, hnode, hvis, rfl, fun T hT => ?_⟩
          exact ⟨outVal, slookup_sinsert _ _ _, checkReturn_ok_matches hT hout heq⟩
        · rw [slookup_sinsert_ne _ _ _ _ (Ne.symm hbare), hst1] at hk
          exact absurd rfl hk
    · next hout =>
      simp only [Prod.mk.injEq] at h
      obtain ⟨-, hst, hvis', -⟩ := h
      subst hst
      subst hvis'
      refine ⟨?_, Or.inr rfl⟩
      intro k hk
      by_cases hcomp : ∃ p, k = nodeId ++ ":" ++ p
      · obtain ⟨p, hp⟩ := hcomp
        exact Or.inr ⟨nodeId, p, by rw [hnode]; rfl, hvis, hp⟩
      · push_neg at hcomp
        rw [slookup_compositeFold _ _ _ _ hcomp, hst1] at hk
        exact absurd rfl hk

theorem resolveTypedValueF_evolve {g : Graph}
    {recur : String → EngSt → List String → Option EngOut} (hrec : RecurOK g recur)
    {tv : TypedValue} {nid port : String} {st : EngSt} {vis : List String}
    {r : Except Error Json} {st' : EngSt} {vis' : List String} {c : Nat}
    (h : resolveTypedValueF recur tv nid port st vis = some (r, st', vis', c)) :
    vis ⊆ vis' ∧ EvolveOK g vis st st' := by
  simp only [resolveTypedValueF] at h
  split at h
  · simp only [Option.some.injEq, Prod.mk.injEq] at h
    obtain ⟨-, hst, hvis, -⟩ := h
    subst hst; subst hvis
    exact ⟨fun _ hx => hx, EvolveOK_refl g vis st⟩
  · split at h
    · split at h
      · simp only [Option.some.injEq, Prod.mk.injEq] at h
        obtain ⟨-, hst, hvis, -⟩ := h
        subst hst; subst hvis
        exact ⟨fun _ hx => hx, EvolveOK_refl g vis st⟩
      · split at h
        · simp at h
        · next e st1 vis1 c1 heq =>
          simp only [Option.some.injEq, Prod.mk.injEq] at h
          obtain ⟨-, hst, hvis, -⟩ := h
          subst hst; subst hvis
          exact (hrec _ _ _ _ _ _ _ heq)
        · next v1 st1 vis1 c1 heq =>
          split at h <;>
          · simp only [Option.some.injEq, Prod.mk.injEq] at h
            obtain ⟨-, hst, hvis, -⟩ := h
            subst hst; subst hvis
            exact (hrec _ _ _ _ _ _ _ heq)
    · split at h
      · split at h <;>
        · simp only [Option.some.injEq, Prod.mk.injEq] at h
          obtain ⟨-, hst, hvis, -⟩ := h
          subst hst; subst hvis
          exact ⟨fun _ hx => hx, EvolveOK_refl g vis st⟩
      · simp only [Option.some.injEq, Prod.mk.injEq] at h
        obtain ⟨-, hst, hvis, -⟩ := h
        subst hst; subst hvis
        exact ⟨fun _ hx => hx, EvolveOK_refl g vis st⟩

theorem resolveArgsF_evolve {g : Graph}
    {recur : String → EngSt → List String → Option EngOut} (hrec : RecurOK g recur)
    (nid : String) :
    ∀ (args : List (String × Option TypedValue)) (acc : List (String × Json)) (st : EngSt)
      (vis : List String) (r : Except Error (List (String × Json))) (st' : EngSt)
      (vis' : List String) (c : Nat),
    resolveArgsF recur nid args acc st vis = some (r, st', vis', c) →
    vis ⊆ vis' ∧ EvolveOK g vis st st' := by
  intro args
  induction args with
  | nil =>
    intro acc st vis r st' vis' c h
    simp only [resolveArgsF, Option.some.injEq, Prod.mk.injEq] at h
    obtain ⟨-, hst, hvis, -⟩ := h
    subst hst; subst hvis
    exact ⟨fun _ hx => hx, EvolveOK_refl g vis st⟩
  | cons kv rest ih =>
    intro acc st vis r st' vis' c h
    obtain ⟨key, otv⟩ := kv
    simp only [resolveArgsF] at h
    split at h
    · simp only [Option.some.injEq, Prod.mk.injEq] at h
      obtain ⟨-, hst, hvis, -⟩ := h
      subst hst; subst hvis
      exact ⟨fun _ hx => hx, EvolveOK_refl g vis st⟩
    · split at h
      · simp at h
      · next e st1 vis1 c1 heq =>
        simp only [Option.some.injEq, Prod.mk.injEq] at h
        obtain ⟨-, hst, hvis, -⟩ := h
        subst hst; subst hvis
        exact resolveTypedValueF_evolve hrec heq
      · next v1 st1 vis1 c1 heq =>
        obtain ⟨hsub1, hev1⟩ := resolveTypedValueF_evolve hrec heq
        split at h
        · simp at h
        · next rr st2 vis2 c2 heq2 =>
          simp only [Option.some.injEq, Prod.mk.injEq] at h
          obtain ⟨-, hst, hvis, -⟩ := h
          subst hst; subst hvis
          obtain ⟨hsub2, hev2⟩ := ih _ _ _ _ _ _ _ heq2
          exact ⟨fun x hx => hsub2 (hsub1 hx), EvolveOK_trans hev1 hev2 hsub1⟩

theorem executeNode_evolve (g : Graph) : ∀ (fuel : Nat), RecurOK g (executeNode g fuel) := by
  intro fuel
  induction fuel with
  | zero =>
    intro m st vis r st' vis' c h
    simp [executeNode] at h
  | succ f ih =>
    intro m st vis r st' vis' c h
    simp only [executeNode] at h
    split at h
    · simp only [Option.some.injEq, Prod.mk.injEq] at h
      obtain ⟨-, hst, hvis, -⟩ := h
      subst hst; subst hvis
      exact ⟨fun _ hx => hx, EvolveOK_refl g vis st⟩
    · split at h
      · simp only [Option.some.injEq, Prod.mk.injEq] at h
        obtain ⟨-, hst, hvis, -⟩ := h
        subst hst; subst hvis
        exact ⟨fun _ hx => hx, EvolveOK_refl g vis st⟩
      · next hmem =>
        split at h
        · simp only [Option.some.injEq, Prod.mk.injEq] at h
          obtain ⟨-, hst, hvis, -⟩ := h
          subst hst; subst hvis
          exact ⟨fun x hx => List.mem_cons_of_mem _ hx, EvolveOK_refl g vis st⟩
        · next node hnode =>
          split at h
          · simp at h
          · next e st2 vis2 c2 heq =>
            simp only [Option.some.injEq, Prod.mk.injEq] at h
            obtain ⟨-, hst, hvis, -⟩ := h
            subst hst; subst hvis
            obtain ⟨hsub, hev⟩ := resolveArgsF_evolve ih m _ _ _ _ _ _ _ _ heq
            exact ⟨fun x hx => hsub (List.mem_cons_of_mem _ hx),
              EvolveOK_weaken (fun x hx => List.mem_cons_of_mem _ hx) hev⟩
          · next rargs st2 vis2 c2 heq =>
            obtain ⟨hsub, hev⟩ := resolveArgsF_evolve ih m _ _ _ _ _ _ _ _ heq
            have hsub' : vis ⊆ vis2 := fun x hx => hsub (List.mem_cons_of_mem _ hx)
            have hev' : EvolveOK g vis st st2 :=
              EvolveOK_weaken (fun x hx => List.mem_cons_of_mem _ hx) hev
            split at h
            · simp at h
            · simp only [Option.some.injEq, Prod.mk.injEq] at h
              obtain ⟨-, hst, hvis, -⟩ := h
              subst hst; subst hvis
              exact ⟨hsub', hev'⟩
            · simp only [Option.some.injEq] at h
              obtain ⟨hevf, hvisf⟩ := finishNode_evolve hnode hmem h
              refine ⟨?_, EvolveOK_trans hev' hevf (fun _ hx => hx)⟩
              rcases hvisf with hv | hv
              · subst hv; exact hsub'
              · subst hv
                intro x hx
                have hxm : x ≠ m := by
                  intro he
                  subst he
                  exact hmem hx
                exact (List.mem_erase_of_ne hxm).mpr (hsub' hx)

theorem constOp_out {inputs result : List (String × Json)}
    (h : ConstOp.execute inputs = .ok result) : (slookup result "out").isSome := by
  simp only [ConstOp.execute] at h
  repeat split at h
  all_goals first
    | exact Except.noConfusion h
    | (cases h; simp [slookup_sinsert])

theorem printOp_out {inputs result : List (String × Json)}
    (h : PrintOp.execute inputs = .ok result) : (slookup result "out").isSome := by
  simp only [PrintOp.execute] at h
  repeat split at h
  all_goals first
    | exact Except.noConfusion h
    | (cases h; simp [slookup_sinsert])

theorem mathOp_out {k : MathKind} {inputs result : List (String × Json)}
    (h : MathOp.execute k inputs = .ok result) : (slookup result "out").isSome := by
  simp only [MathOp.execute] at h
  split at h
  · exact Except.noConfusion h
  · split at h
    · exact Except.noConfusion h
    · split at h
      · cases h; simp [slookup_sinsert]
      · cases h; simp [slookup_sinsert]
      · cases h; simp [slookup_sinsert]
      · split at h
        · exact Except.noConfusion h
        · cases h; simp [slookup_sinsert]

theorem logicOp_out {k : LogicKind} {inputs result : List (String × Json)}
    (h : LogicOp.execute k inputs = .ok result) : (slookup result "out").isSome := by
  simp only [LogicOp.execute] at h
  split at h
  · exact Except.noConfusion h
  · split at h
    · exact Except.noConfusion h
    · split at h
      · cases h; simp [slookup_sinsert]
      · split at h
        · cases h; simp [slookup_sinsert]
        · exact Except.noConfusion h

theorem switchOp_out {inputs result : List (String × Json)}
    (h : SwitchOp.execute inputs = .ok result) : (slookup result "out").isSome := by
  simp only [SwitchOp.execute] at h
  split at h
  · exact Except.noConfusion h
  · split at h
    · split at h
      · exact Except.noConfusion h
      · cases h; simp [slookup_sinsert]
    · split at h
      · exact Except.noConfusion h
      · cases h; simp [slookup_sinsert]

theorem lenOp_out {inputs result : List (String × Json)}
    (h : LenOp.execute inputs = .ok result) : (slookup result "out").isSome := by
  simp only [LenOp.execute] at h
  split at h
  · exact Except.noConfusion h
  · split at h
    · exact Except.noConfusion h
    · cases h; simp [slookup_sinsert]

theorem mapOp_out {runOp : RunOp} {inputs result : List (String × Json)} {c : Nat}
    (h : MapOp.execute runOp inputs = some (.ok result, c)) :
    (slookup result "out").isSome := by
  simp only [MapOp.execute] at h
  split at h
  · simp at h
  · split at h
    · simp at h
    · split at h
      · simp at h
      · split at h
        · simp at h
        · split at h
          · simp at h
          · split at h
            · simp at h
            · split at h
              · split at h
                · simp at h
                · simp at h
                · simp only [Option.some.injEq, Prod.mk.injEq] at h
                  obtain ⟨h1, -⟩ := h
                  cases h1
                  simp [slookup_sinsert]
              · simp at h

theorem reduceOp_out {runOp : RunOp} {inputs result : List (String × Json)} {c : Nat}
    (h : ReduceOp.execute runOp inputs = some (.ok result, c)) :
    (slookup result "out").isSome := by
  simp only [ReduceOp.execute] at h
  split at h
  · simp at h
  · split at h
    · simp at h
    · split at h
      · simp at h
      · split at h
        · simp at h
        · split at h
          · simp at h
          · split at h
            · simp at h
            · split at h
              · simp at h
              · split at h
                · split at h
                  · simp at h
                  · simp at h
                  · simp only [Option.some.injEq, Prod.mk.injEq] at h
                    obtain ⟨h1, -⟩ := h
                    cases h1
                    simp [slookup_sinsert]
                · simp at h

theorem filterOp_out {runOp : RunOp} {inputs result : List (String × Json)} {c : Nat}
    (h : FilterOp.execute runOp inputs = some (.ok result, c)) :
    (slookup result "out").isSome := by
  simp only [FilterOp.execute] at h
  split at h
  · simp at h
  · split at h
    · simp at h
    · split at h
      · simp at h
      · split at h
        · simp at h
        · split at h
          · simp at h
          · split at h
            · simp at h
            · split at h
              · split at h
                · simp at h
                · simp at h
                · simp only [Option.some.injEq, Prod.mk.injEq] at h
                  obtain ⟨h1, -⟩ := h
                  cases h1
                  simp [slookup_sinsert]
              · simp at h

theorem execOp_ok_has_out {fuel : Nat} {name : String}
    {inputs result : List (String × Json)} {c : Nat}
    (h : execOp fuel name inputs = some (.ok result, c)) :
    (slookup result "out").isSome := by
  match fuel with
  | 0 => simp [execOp] at h
  | f + 1 =>
    simp only [execOp] at h
    split at h
    · exact constOp_out (by simp only [Option.some.injEq, Prod.mk.injEq] at h; exact h.1)
    · exact printOp_out (by simp only [Option.some.injEq, Prod.mk.injEq] at h; exact h.1)
    · exact mathOp_out (by simp only [Option.some.injEq, Prod.mk.injEq] at h; exact h.1)
    · exact mathOp_out (by simp only [Option.some.injEq, Prod.mk.injEq] at h; exact h.1)
    · exact mathOp_out (by simp only [Option.some.injEq, Prod.mk.injEq] at h; exact h.1)
    · exact mathOp_out (by simp only [Option.some.injEq, Prod.mk.injEq] at h; exact h.1)
    · exact logicOp_out (by simp only [Option.some.injEq, Prod.mk.injEq] at h; exact h.1)
    · exact logicOp_out (by simp only [Option.some.injEq, Prod.mk.injEq] at h; exact h.1)
    · exact logicOp_out (by simp only [Option.some.injEq, Prod.mk.injEq] at h; exact h.1)
    · exact switchOp_out (by simp only [Option.some.injEq, Prod.mk.injEq] at h; exact h.1)
    · exact lenOp_out (by simp only [Option.some.injEq, Prod.mk.injEq] at h; exact h.1)
    · split at h
      · simp at h
      · next r0 c0 heq =>
        simp only [Option.some.injEq, Prod.mk.injEq] at h
        obtain ⟨h1, -⟩ := h
        subst h1
        exact mapOp_out heq
    · split at h
      · simp at h
      · next r0 c0 heq =>
        simp only [Option.some.injEq, Prod.mk.injEq] at h
        obtain ⟨h1, -⟩ := h
        subst h1
        exact reduceOp_out heq
    · split at h
      · simp at h
      · next r0 c0 heq =>
        simp only [Option.some.injEq, Prod.mk.injEq] at h
        obtain ⟨h1, -⟩ := h
        subst h1
        exact filterOp_out heq
    · simp at h

theorem finishNode_err_state {nodeId : String} {node : Node}
    {result : List (String × Json)} {st : EngSt} {vis : List String} {cnt : Nat}
    {e : Error} {st' : EngSt} {vis' : List String} {c' : Nat}
    (hout : (slookup result "out").isSome)
    (h : finishNode nodeId node result st vis cnt = (.error e, st', vis', c')) :
    st' = st := by
  simp only [finishNode] at h
  split at h
  · simp only [Prod.mk.injEq] at h
    exact h.2.1.symm
  · split at h
    · simp at h
    · next hnone => rw [hnone] at hout; simp at hout

/-! ## C1: type soundness of the result cache -/

/-- Counterexample to claim C1 as stated: executing the routing `Switch`
node `y` of `colGraph1` writes the composite key `"y:true"`, which is
also the bare node-id of a node declared to return `Number`; the cached
value there is the string `"hello"`, so the invariant is not preserved
by this `execute_node` call. -/
theorem cache_typed_counterexample :
    CacheTyped colGraph1 EngSt.empty
    ∧ (executeNode colGraph1 3 "y" EngSt.empty []).map (·.2.1)
        = some ⟨[("y", .str "hello"), ("y:true", .str "hello")], []⟩
    ∧ ¬ CacheTyped colGraph1 ⟨[("y", .str "hello"), ("y:true", .str "hello")], []⟩ := by
  refine ⟨?_, rfl, ?_⟩
  · intro id n T v _ _ hv
    simp [EngSt.empty, slookup] at hv
  · intro hc
    have := hc "y:true" ⟨"Const", some .number, [("value", litPort (.num 0) "Number")]⟩
      .number (.str "hello") rfl rfl rfl
    simp [SpellType.matches] at this

/-- Claim C1 as amended: over graphs whose node-ids contain no `:`
character (ruling out collisions between bare node-ids and composite
`"<id>:<port>"` cache keys), the type-soundness invariant — every cached
`out` value of a node with a declared return type matches that type — is
preserved by every `execute_node` call. -/
theorem cache_typed_preserved {g : Graph} {fuel : Nat} {id : String} {st : EngSt}
    {vis : List String} {r : Except Error Json} {st' : EngSt} {vis' : List String} {c : Nat}
    (hcf : colonFree g) (hinv : CacheTyped g st)
    (h : executeNode g fuel id st vis = some (r, st', vis', c)) : CacheTyped g st' := by
  obtain ⟨-, hev⟩ := executeNode_evolve g fuel id st vis r st' vis' c h
  intro id' n T v hn hT hv
  by_cases hch : slookup st'.cache id' = slookup st.cache id'
  · exact hinv id' n T v hn hT (hch ▸ hv)
  · rcases hev id' hch with ⟨m, node, hm, -, hkm, hval⟩ | ⟨m, p, -, -, hkm⟩
    · subst hkm
      rw [hn] at hm
      cases hm
      obtain ⟨v', hv', hmv⟩ := hval T hT
      rw [hv] at hv'
      cases hv'
      exact hmv
    · have hnc : noColon id' := hcf _ (slookup_mem _ _ _ hn)
      exact absurd hkm (noColon_ne_composite hnc m p)

/-- Witness for the amended C1: after resolving `s` in scenario S1 the
invariant holds for the resulting engine state. -/
theorem cache_typed_preserved_witness : CacheTyped s1Graph s1After :=
  @cache_typed_preserved s1Graph 6 "s" EngSt.empty [] (.ok (.num 5)) s1After [] 3
    (by unfold colonFree noColon; decide)
    (fun id n T v _ _ hv => by simp [EngSt.empty, slookup] at hv)
    rfl

/-! ## C2: atomicity of node evaluation -/

/-- Counterexample to claim C2 as stated: resolving node `a` of
`colGraph2` fails with `UnknownOperation`, yet during that evaluation an
entry was written under `"a:b:true"` — which is the composite key
`"a" ++ ":" ++ "b:true"` of the failing node `a`. -/
theorem atomic_failure_counterexample :
    (executeNode colGraph2 4 "a" EngSt.empty []).map
        (fun o => (o.1, slookup o.2.1.cache ("a" ++ ":" ++ "b:true")))
      = some (.error (.unknownOperation "Nope"), some (.num 5)) := rfl

/-- Claim C2 as amended: over graphs whose node-ids contain no `:`
character, whenever `execute_node` returns an error for a node, the
result cache is unchanged at that node's bare key and at every composite
`"<node-id>:<port>"` key (writes made for other, successfully evaluated
nodes may remain). -/
theorem atomic_failure_amended {g : Graph} {fuel : Nat} {id : String} {st : EngSt}
    {vis : List String} {e : Error} {st' : EngSt} {vis' : List String} {c : Nat}
    (hcf : colonFree g)
    (h : executeNode g fuel id st vis = some (.error e, st', vis', c)) :
    slookup st'.cache id = slookup st.cache id
    ∧ ∀ p, slookup st'.cache (id ++ ":" ++ p) = slookup st.cache (id ++ ":" ++ p) := by
  match fuel with
  | 0 => simp [executeNode] at h
  | f + 1 =>
    simp only [executeNode] at h
    split at h
    · simp at h
    · split at h
      · simp only [Option.some.injEq, Prod.mk.injEq] at h
        obtain ⟨-, hst, -, -⟩ := h
        subst hst
        exact ⟨rfl, fun p => rfl⟩
      · next hmem =>
        split at h
        · simp only [Option.some.injEq, Prod.mk.injEq] at h
          obtain ⟨-, hst, -, -⟩ := h
          subst hst
          exact ⟨rfl, fun p => rfl⟩
        · next node hnode =>
          have hidg : noColon id := hcf _ (slookup_mem _ _ _ hnode)
          have main : ∀ st2 : EngSt, EvolveOK g (id :: vis) st st2 →
              slookup st2.cache id = slookup st.cache id
              ∧ ∀ p, slookup st2.cache (id ++ ":" ++ p)
                  = slookup st.cache (id ++ ":" ++ p) := by
            intro st2 hev
            constructor
            · by_contra hch
              rcases hev id hch with ⟨m, mnode, hm, hmv, hkm, -⟩ | ⟨m, p, hm, hmv, hkm⟩
              · subst hkm
                exact hmv (List.mem_cons_self _ _)
              · have : noColon id := hidg
                exact absurd hkm (noColon_ne_composite this m p)
            · intro p
              by_contra hch
              rcases hev _ hch with ⟨m, mnode, hm, hmv, hkm, -⟩ | ⟨m, q, hm, hmv, hkm⟩
              · have hmc : noColon m := hcf _ (slookup_mem _ _ _ hm)
                exact absurd hkm.symm (noColon_ne_composite hmc id p)
              · obtain ⟨mnode, hmn⟩ := Option.isSome_iff_exists.mp hm
                have hmc : noColon m := hcf _ (slookup_mem _ _ _ hmn)
                have : m = id := composite_inj hmc hidg hkm.symm
                subst this
                exact hmv (List.mem_cons_self _ _)
          split at h
          · simp at h
          · next e2 st2 vis2 c2 heq =>
            simp only [Option.some.injEq, Prod.mk.injEq] at h
            obtain ⟨-, hst, -, -⟩ := h
            subst hst
            exact main _ (resolveArgsF_evolve (executeNode_evolve g f) id _ _ _ _ _ _ _ _ heq).2
          · next rargs st2 vis2 c2 heq =>
            have hev2 := (resolveArgsF_evolve (executeNode_evolve g f) id _ _ _ _ _ _ _ _ heq).2
            split at h
            · simp at h
            · simp only [Option.some.injEq, Prod.mk.injEq] at h
              obtain ⟨-, hst, -, -⟩ := h
              subst hst
              exact main _ hev2
            · next result c3 heqop =>
              simp only [Option.some.injEq] at h
              have hst : st' = st2 :=
                finishNode_err_state (execOp_ok_has_out heqop) h
              subst hst
              exact main _ hev2

/-- Witness for the amended C2: resolving `d` on a fresh engine over the
S4 graph fails with the division error; the cache stays empty at `d`'s
bare key and at a composite key of `d`, while the successfully evaluated
dependencies `o` and `z` remain cached. -/
theorem atomic_failure_amended_witness :
    slookup (⟨[("o", .num 1), ("z", .num 0)],
        [("o", .number), ("z", .number)]⟩ : EngSt).cache "d"
      = slookup EngSt.empty.cache "d"
    ∧ slookup (⟨[("o", .num 1), ("z", .num 0)],
        [("o", .number), ("z", .number)]⟩ : EngSt).cache ("d" ++ ":" ++ "out")
      = slookup EngSt.empty.cache ("d" ++ ":" ++ "out") := by
  have h := @atomic_failure_amended s4Graph 6 "d" EngSt.empty []
    (.operationError "d" "Division by zero")
    ⟨[("o", .num 1), ("z", .num 0)], [("o", .number), ("z", .number)]⟩
    ["d"] 3 (by unfold colonFree noColon; decide) rfl
  exact ⟨h.1, h.2 "out"⟩

/-! ## C9: provenance of `MissingTypeAnnotation` -/

theorem get_input_err {inputs : List (String × Json)} {name : String} {e : Error}
    (h : get_input inputs name = .error e) : e = .missingInput "unknown" name := by
  unfold get_input at h
  split at h
  · exact Except.noConfusion h
  · cases h
    rfl

theorem get_f64_err {inputs : List (String × Json)} {name : String} {e : Error}
    (h : get_f64 inputs name = .error e) : ∀ n p, e ≠ .missingTypeAnnot n p := by
  unfold get_f64 at h
  split at h
  · next heq =>
    cases h
    rw [get_input_err heq]
    exact fun n p => Error.noConfusion
  · split at h
    · exact Except.noConfusion h
    · cases h
      exact fun n p => Error.noConfusion

theorem get_bool_err {inputs : List (String × Json)} {name : String} {e : Error}
    (h : get_bool inputs name = .error e) : ∀ n p, e ≠ .missingTypeAnnot n p := by
  unfold get_bool at h
  split at h
  · next heq =>
    cases h
    rw [get_input_err heq]
    exact fun n p => Error.noConfusion
  · split at h
    · exact Except.noConfusion h
    · cases h
      exact fun n p => Error.noConfusion

theorem constOp_err {inputs : List (String × Json)} {e : Error}
    (h : ConstOp.execute inputs = .error e) : ∀ n p, e ≠ .missingTypeAnnot n p := by
  simp only [ConstOp.execute] at h
  split at h
  · next heq =>
    cases h
    rw [get_input_err heq]
    exact fun n p => Error.noConfusion
  · exact Except.noConfusion h

theorem printOp_err {inputs : List (String × Json)} {e : Error}
    (h : PrintOp.execute inputs = .error e) : ∀ n p, e ≠ .missingTypeAnnot n p := by
  simp only [PrintOp.execute] at h
  split at h
  · next heq =>
    cases h
    rw [get_input_err heq]
    exact fun n p => Error.noConfusion
  · exact Except.noConfusion h

theorem mathOp_err {k : MathKind} {inputs : List (String × Json)} {e : Error}
    (h : MathOp.execute k inputs = .error e) : ∀ n p, e ≠ .missingTypeAnnot n p := by
  simp only [MathOp.execute] at h
  split at h
  · next heq => cases h; exact get_f64_err heq
  · split at h
    · next heq => cases h; exact get_f64_err heq
    · split at h
      · exact Except.noConfusion h
      · exact Except.noConfusion h
      · exact Except.noConfusion h
      · split at h
        · cases h; exact fun n p => Error.noConfusion
        · exact Except.noConfusion h

theorem logicOp_err {k : LogicKind} {inputs : List (String × Json)} {e : Error}
    (h : LogicOp.execute k inputs = .error e) : ∀ n p, e ≠ .missingTypeAnnot n p := by
  simp only [LogicOp.execute] at h
  split at h
  · next heq =>
    cases h
    rw [get_input_err heq]
    exact fun n p => Error.noConfusion
  · split at h
    · next heq =>
      cases h
      rw [get_input_err heq]
      exact fun n p => Error.noConfusion
    · split at h
      · exact Except.noConfusion h
      · split at h
        · exact Except.noConfusion h
        · cases h; exact fun n p => Error.noConfusion

theorem switchOp_err {inputs : List (String × Json)} {e : Error}
    (h : SwitchOp.execute inputs = .error e) : ∀ n p, e ≠ .missingTypeAnnot n p := by
  simp only [SwitchOp.execute] at h
  split at h
  · next heq => cases h; exact get_bool_err heq
  · split at h
    · split at h
      · next heq =>
        cases h
        rw [get_input_err heq]
        exact fun n p => Error.noConfusion
      · exact Except.noConfusion h
    · split at h
      · next heq =>
        cases h
        rw [get_input_err heq]
        exact fun n p => Error.noConfusion
      · exact Except.noConfusion h

theorem lenOp_err {inputs : List (String × Json)} {e : Error}
    (h : LenOp.execute inputs = .error e) : ∀ n p, e ≠ .missingTypeAnnot n p := by
  simp only [LenOp.execute] at h
  split at h
  · next heq =>
    cases h
    rw [get_input_err heq]
    exact fun n p => Error.noConfusion
  · split at h
    · cases h; exact fun n p => Error.noConfusion
    · exact Except.noConfusion h

theorem mapLoop_err {runOp : RunOp} {opName itemArg : String}
    {params : List (String × Json)}
    (hrec : ∀ name inp e c, runOp name inp = some (.error e, c) →
      ∀ n p, e ≠ .missingTypeAnnot n p) :
    ∀ {xs : List Json} {e : Error} {c : Nat},
    mapLoop runOp opName itemArg params xs = some (.error e, c) →
    ∀ n p, e ≠ .missingTypeAnnot n p := by
  intro xs
  induction xs with
  | nil => intro e c h; simp [mapLoop] at h
  | cons item rest ih =>
    intro e c h
    simp only [mapLoop] at h
    split at h
    · simp at h
    · next heq =>
      simp only [Option.some.injEq, Prod.mk.injEq] at h
      obtain ⟨h1, -⟩ := h
      cases h1
      exact hrec _ _ _ _ heq
    · split at h
      · simp at h
      · next heq2 =>
        simp only [Option.some.injEq, Prod.mk.injEq] at h
        obtain ⟨h1, -⟩ := h
        cases h1
        exact ih heq2
      · simp at h

theorem reduceLoop_err {runOp : RunOp} {opName accArg itemArg : String}
    (hrec : ∀ name inp e c, runOp name inp = some (.error e, c) →
      ∀ n p, e ≠ .missingTypeAnnot n p) :
    ∀ {xs : List Json} {acc : Json} {e : Error} {c : Nat},
    reduceLoop runOp opName accArg itemArg xs acc = some (.error e, c) →
    ∀ n p, e ≠ .missingTypeAnnot n p := by
  intro xs
  induction xs with
  | nil => intro acc e c h; simp [reduceLoop] at h
  | cons item rest ih =>
    intro acc e c h
    simp only [reduceLoop] at h
    split at h
    · simp at h
    · next heq =>
      simp only [Option.some.injEq, Prod.mk.injEq] at h
      obtain ⟨h1, -⟩ := h
      cases h1
      exact hrec _ _ _ _ heq
    · split at h
      · simp at h
      · next heq2 =>
        simp only [Option.some.injEq, Prod.mk.injEq] at h
        obtain ⟨h1, -⟩ := h
        cases h1
        exact ih heq2
      · simp at h

theorem filterLoop_err {runOp : RunOp} {opName itemArg : String}
    {params : List (String × Json)}
    (hrec : ∀ name inp e c, runOp name inp = some (.error e, c) →
      ∀ n p, e ≠ .missingTypeAnnot n p) :
    ∀ {xs : List Json} {e : Error} {c : Nat},
    filterLoop runOp opName itemArg params xs = some (.error e, c) →
    ∀ n p, e ≠ .missingTypeAnnot n p := by
  intro xs
  induction xs with
  | nil => intro e c h; simp [filterLoop] at h
  | cons item rest ih =>
    intro e c h
    simp only [filterLoop] at h
    split at h
    · simp at h
    · next heq =>
      simp only [Option.some.injEq, Prod.mk.injEq] at h
      obtain ⟨h1, -⟩ := h
      cases h1
      exact hrec _ _ _ _ heq
    · split at h
      · simp at h
      · next heq2 =>
        simp only [Option.some.injEq, Prod.mk.injEq] at h
        obtain ⟨h1, -⟩ := h
        cases h1
        exact ih heq2
      · split at h <;> simp at h

theorem mapOp_err {runOp : RunOp} {inputs : List (String × Json)} {e : Error} {c : Nat}
    (hrec : ∀ name inp e' c', runOp name inp = some (.error e', c') →
      ∀ n p, e' ≠ .missingTypeAnnot n p)
    (h : MapOp.execute runOp inputs = some (.error e, c)) :
    ∀ n p, e ≠ .missingTypeAnnot n p := by
  simp only [MapOp.execute] at h
  split at h
  · next heq =>
    simp only [Option.some.injEq, Prod.mk.injEq] at h
    obtain ⟨h1, -⟩ := h
    cases h1
    rw [get_input_err heq]
    exact fun n p => Error.noConfusion
  · split at h
    · simp only [Option.some.injEq, Prod.mk.injEq] at h
      obtain ⟨h1, -⟩ := h
      cases h1
      exact fun n p => Error.noConfusion
    · split at h
      · next heq =>
        simp only [Option.some.injEq, Prod.mk.injEq] at h
        obtain ⟨h1, -⟩ := h
        cases h1
        rw [get_input_err heq]
        exact fun n p => Error.noConfusion
      · split at h
        · simp only [Option.some.injEq, Prod.mk.injEq] at h
          obtain ⟨h1, -⟩ := h
          cases h1
          exact fun n p => Error.noConfusion
        · split at h
          · next heq =>
            simp only [Option.some.injEq, Prod.mk.injEq] at h
            obtain ⟨h1, -⟩ := h
            cases h1
            rw [get_input_err heq]
            exact fun n p => Error.noConfusion
          · split at h
            · next heq =>
              simp only [Option.some.injEq, Prod.mk.injEq] at h
              obtain ⟨h1, -⟩ := h
              cases h1
              simp only [getStaticParams] at heq
              split at heq
              · exact Except.noConfusion heq
              · split at heq
                · exact Except.noConfusion heq
                · cases heq; exact fun n p => Error.noConfusion
            · split at h
              · split at h
                · simp at h
                · next heq =>
                  simp only [Option.some.injEq, Prod.mk.injEq] at h
                  obtain ⟨h1, -⟩ := h
                  cases h1
                  exact mapLoop_err hrec heq
                · simp at h
              · simp only [Option.some.injEq, Prod.mk.injEq] at h
                obtain ⟨h1, -⟩ := h
                cases h1
                exact fun n p => Error.noConfusion

theorem filterOp_err {runOp : RunOp} {inputs : List (String × Json)} {e : Error} {c : Nat}
    (hrec : ∀ name inp e' c', runOp name inp = some (.error e', c') →
      ∀ n p, e' ≠ .missingTypeAnnot n p)
    (h : FilterOp.execute runOp inputs = some (.error e, c)) :
    ∀ n p, e ≠ .missingTypeAnnot n p := by
  simp only [FilterOp.execute] at h
  split at h
  · next heq =>
    simp only [Option.some.injEq, Prod.mk.injEq] at h
    obtain ⟨h1, -⟩ := h
    cases h1
    rw [get_input_err heq]
    exact fun n p => Error.noConfusion
  · split at h
    · simp only [Option.some.injEq, Prod.mk.injEq] at h
      obtain ⟨h1, -⟩ := h
      cases h1
      exact fun n p => Error.noConfusion
    · split at h
      · next heq =>
        simp only [Option.some.injEq, Prod.mk.injEq] at h
        obtain ⟨h1, -⟩ := h
        cases h1
        rw [get_input_err heq]
        exact fun n p => Error.noConfusion
      · split at h
        · simp only [Option.some.injEq, Prod.mk.injEq] at h
          obtain ⟨h1, -⟩ := h
          cases h1
          exact fun n p => Error.noConfusion
        · split at h
          · next heq =>
            simp only [Option.some.injEq, Prod.mk.injEq] at h
            obtain ⟨h1, -⟩ := h
            cases h1
            rw [get_input_err heq]
            exact fun n p => Error.noConfusion
          · split at h
            · next heq =>
              simp only [Option.some.injEq, Prod.mk.injEq] at h
              obtain ⟨h1, -⟩ := h
              cases h1
              simp only [getStaticParams] at heq
              split at heq
              · exact Except.noConfusion heq
              · split at heq
                · exact Except.noConfusion heq
                · cases heq; exact fun n p => Error.noConfusion
            · split at h
              · split at h
                · simp at h
                · next heq =>
                  simp only [Option.some.injEq, Prod.mk.injEq] at h
                  obtain ⟨h1, -⟩ := h
                  cases h1
                  exact filterLoop_err hrec heq
                · simp at h
              · simp only [Option.some.injEq, Prod.mk.injEq] at h
                obtain ⟨h1, -⟩ := h
                cases h1
                exact fun n p => Error.noConfusion

theorem reduceOp_err {runOp : RunOp} {inputs : List (String × Json)} {e : Error} {c : Nat}
    (hrec : ∀ name inp e' c', runOp name inp = some (.error e', c') →
      ∀ n p, e' ≠ .missingTypeAnnot n p)
    (h : ReduceOp.execute runOp inputs = some (.error e, c)) :
    ∀ n p, e ≠ .missingTypeAnnot n p := by
  simp only [ReduceOp.execute] at h
  split at h
  · next heq =>
    simp only [Option.some.injEq, Prod.mk.injEq] at h
    obtain ⟨h1, -⟩ := h
    cases h1
    rw [get_input_err heq]
    exact fun n p => Error.noConfusion
  · split at h
    · simp only [Option.some.injEq, Prod.mk.injEq] at h
      obtain ⟨h1, -⟩ := h
      cases h1
      exact fun n p => Error.noConfusion
    · split at h
      · next heq =>
        simp only [Option.some.injEq, Prod.mk.injEq] at h
        obtain ⟨h1, -⟩ := h
        cases h1
        rw [get_input_err heq]
        exact fun n p => Error.noConfusion
      · split at h
        · simp only [Option.some.injEq, Prod.mk.injEq] at h
          obtain ⟨h1, -⟩ := h
          cases h1
          exact fun n p => Error.noConfusion
        · split at h
          · next heq =>
            simp only [Option.some.injEq, Prod.mk.injEq] at h
            obtain ⟨h1, -⟩ := h
            cases h1
            rw [get_input_err heq]
            exact fun n p => Error.noConfusion
          · split at h
            · next heq =>
              simp only [Option.some.injEq, Prod.mk.injEq] at h
              obtain ⟨h1, -⟩ := h
              cases h1
              rw [get_input_err heq]
              exact fun n p => Error.noConfusion
            · split at h
              · next heq =>
                simp only [Option.some.injEq, Prod.mk.injEq] at h
                obtain ⟨h1, -⟩ := h
                cases h1
                rw [get_input_err heq]
                exact fun n p => Error.noConfusion
              · split at h
                · split at h
                  · simp at h
                  · next heq =>
                    simp only [Option.some.injEq, Prod.mk.injEq] at h
                    obtain ⟨h1, -⟩ := h
                    cases h1
                    exact reduceLoop_err hrec heq
                  · simp at h
                · simp only [Option.some.injEq, Prod.mk.injEq] at h
                  obtain ⟨h1, -⟩ := h
                  cases h1
                  exact fun n p => Error.noConfusion

theorem execOp_no_MTA : ∀ {fuel : Nat} {name : String} {inputs : List (String × Json)}
    {e : Error} {c : Nat}, execOp fuel name inputs = some (.error e, c) →
    ∀ n p, e ≠ .missingTypeAnnot n p := by
  intro fuel
  induction fuel with
  | zero => intro name inputs e c h; simp [execOp] at h
  | succ f ih =>
    intro name inputs e c h
    simp only [execOp] at h
    split at h
    · exact constOp_err (by simp only [Option.some.injEq, Prod.mk.injEq] at h; exact h.1)
    · exact printOp_err (by simp only [Option.some.injEq, Prod.mk.injEq] at h; exact h.1)
    · exact mathOp_err (by simp only [Option.some.injEq, Prod.mk.injEq] at h; exact h.1)
    · exact mathOp_err (by simp only [Option.some.injEq, Prod.mk.injEq] at h; exact h.1)
    · exact mathOp_err (by simp only [Option.some.injEq, Prod.mk.injEq] at h; exact h.1)
    · exact mathOp_err (by simp only [Option.some.injEq, Prod.mk.injEq] at h; exact h.1)
    · exact logicOp_err (by simp only [Option.some.injEq, Prod.mk.injEq] at h; exact h.1)
    · exact logicOp_err (by simp only [Option.some.injEq, Prod.mk.injEq] at h; exact h.1)
    · exact logicOp_err (by simp only [Option.some.injEq, Prod.mk.injEq] at h; exact h.1)
    · exact switchOp_err (by simp only [Option.some.injEq, Prod.mk.injEq] at h; exact h.1)
    · exact lenOp_err (by simp only [Option.some.injEq, Prod.mk.injEq] at h; exact h.1)
    · split at h
      · simp at h
      · next heq =>
        simp only [Option.some.injEq, Prod.mk.injEq] at h
        obtain ⟨h1, -⟩ := h
        cases h1
        exact mapOp_err (fun nm inp e' c' hh => ih hh) heq
    · split at h
      · simp at h
      · next heq =>
        simp only [Option.some.injEq, Prod.mk.injEq] at h
        obtain ⟨h1, -⟩ := h
        cases h1
        exact reduceOp_err (fun nm inp e' c' hh => ih hh) heq
    · split at h
      · simp at h
      · next heq =>
        simp only [Option.some.injEq, Prod.mk.injEq] at h
        obtain ⟨h1, -⟩ := h
        cases h1
        exact filterOp_err (fun nm inp e' c' hh => ih hh) heq
    · simp only [Option.some.injEq, Prod.mk.injEq] at h
      obtain ⟨h1, -⟩ := h
      cases h1
      exact fun n p => Error.noConfusion

theorem rewriteNodeError_MTA {id : String} {e : Error} {n p : String}
    (h : rewriteNodeError id e = .missingTypeAnnot n p) : e = .missingTypeAnnot n p := by
  cases e <;> simp [rewriteNodeError] at h ⊢ <;> exact h

theorem checkReturn_err_not_MTA {nodeId : String} {node : Node}
    {result : List (String × Json)} {st : EngSt} {e : Error}
    (h : checkReturn nodeId node result st = .error e) :
    ∀ n p, e ≠ .missingTypeAnnot n p := by
  simp only [checkReturn] at h
  split at h
  · split at h
    · exact Except.noConfusion h
    · cases h; exact fun n p => Error.noConfusion
  · exact Except.noConfusion h

theorem finishNode_err_not_MTA {nodeId : String} {node : Node}
    {result : List (String × Json)} {st : EngSt} {vis : List String} {cnt : Nat}
    {e : Error} {st' : EngSt} {vis' : List String} {c' : Nat}
    (h : finishNode nodeId node result st vis cnt = (.error e, st', vis', c')) :
    ∀ n p, e ≠ .missingTypeAnnot n p := by
  simp only [finishNode] at h
  split at h
  · next heq =>
    simp only [Prod.mk.injEq] at h
    obtain ⟨h1, -⟩ := h
    cases h1
    exact checkReturn_err_not_MTA heq
  · split at h
    · simp at h
    · simp only [Prod.mk.injEq] at h
      obtain ⟨h1, -⟩ := h
      cases h1
      exact fun n p => Error.noConfusion

theorem resolveTypedValueF_mta {recur : String → EngSt → List String → Option EngOut}
    {tv : TypedValue} {nid port : String} {st : EngSt} {vis : List String}
    {e : Error} {st' : EngSt} {vis' : List String} {c : Nat} {n p : String}
    (h : resolveTypedValueF recur tv nid port st vis = some (.error e, st', vis', c))
    (hmta : e = .missingTypeAnnot n p) :
    ∃ ref T st1 vis1 c1, tv = .reference ref T
      ∧ recur ref st vis = some (.error e, st1, vis1, c1) := by
  cases tv with
  | literal lit T =>
    simp only [resolveTypedValueF, TypedValue.get_type, TypedValue.is_reference,
      TypedValue.get_literal, Bool.false_eq_true, if_false] at h
    split at h
    · simp at h
    · simp only [Option.some.injEq, Prod.mk.injEq] at h
      obtain ⟨h1, -⟩ := h
      cases h1
      cases hmta
  | reference ref T =>
    simp only [resolveTypedValueF, TypedValue.get_type, TypedValue.is_reference,
      TypedValue.get_reference, if_true] at h
    split at h
    · simp at h
    · next heq =>
      simp only [Option.some.injEq, Prod.mk.injEq] at h
      obtain ⟨h1, -, -, -⟩ := h
      cases h1
      exact ⟨ref, T, _, _, _, rfl, heq⟩
    · split at h
      · simp at h
      · simp only [Option.some.injEq, Prod.mk.injEq] at h
        obtain ⟨h1, -⟩ := h
        cases h1
        cases hmta

theorem resolveArgsF_mta {recur : String → EngSt → List String → Option EngOut}
    {nid : String} :
    ∀ {args : List (String × Option TypedValue)} {acc : List (String × Json)} {st : EngSt}
      {vis : List String} {e : Error} {st' : EngSt} {vis' : List String} {c : Nat}
      {n p : String},
    resolveArgsF recur nid args acc st vis = some (.error e, st', vis', c) →
    e = .missingTypeAnnot n p →
    (n = nid ∧ (p, (none : Option TypedValue)) ∈ args)
    ∨ ∃ m st0 vis0 st1 vis1 c1, recur m st0 vis0 = some (.error e, st1, vis1, c1) := by
  intro args
  induction args with
  | nil =>
    intro acc st vis e st' vis' c n p h hmta
    simp [resolveArgsF] at h
  | cons kv rest ih =>
    intro acc st vis e st' vis' c n p h hmta
    obtain ⟨key, otv⟩ := kv
    simp only [resolveArgsF] at h
    split at h
    · simp only [Option.some.injEq, Prod.mk.injEq] at h
      obtain ⟨h1, -⟩ := h
      cases h1
      cases hmta
      exact Or.inl ⟨rfl, by simp⟩
    · split at h
      · simp at h
      · next heq =>
        simp only [Option.some.injEq, Prod.mk.injEq] at h
        obtain ⟨h1, -⟩ := h
        cases h1
        obtain ⟨ref, T, st1, vis1, c1, -, hr⟩ := resolveTypedValueF_mta heq hmta
        exact Or.inr ⟨ref, _, _, _, _, _, hr⟩
      · split at h
        · simp at h
        · next r2 st2b vis2b c2b heq2 =>
          simp only [Option.some.injEq, Prod.mk.injEq] at h
          obtain ⟨h1, -⟩ := h
          cases h1
          rcases ih heq2 hmta with ⟨hn, hmem⟩ | hr
          · exact Or.inl ⟨hn, List.mem_cons_of_mem _ hmem⟩
          · exact Or.inr hr

theorem executeNode_mta {g : Graph} :
    ∀ {fuel : Nat} {id : String} {st : EngSt} {vis : List String} {n p : String}
      {st' : EngSt} {vis' : List String} {c : Nat},
    executeNode g fuel id st vis = some (.error (.missingTypeAnnot n p), st', vis', c) →
    ∃ node, slookup g.nodes n = some node
      ∧ (p, (none : Option TypedValue)) ∈ node.get_all_typed_args := by
  intro fuel
  induction fuel with
  | zero =>
    intro id st vis n p st' vis' c h
    simp [executeNode] at h
  | succ f ih =>
    intro id st vis n p st' vis' c h
    simp only [executeNode] at h
    split at h
    · simp at h
    · split at h
      · simp at h
      · split at h
        · simp at h
        · next node hnode =>
          split at h
          · simp at h
          · next e2 st2 vis2 c2 heq =>
            simp only [Option.some.injEq, Prod.mk.injEq] at h
            obtain ⟨h1, -⟩ := h
            cases h1
            rcases resolveArgsF_mta heq rfl with ⟨hn, hmem⟩ | ⟨m, st0, vis0, st1, vis1, c1, hr⟩
            · subst hn
              exact ⟨node, hnode, hmem⟩
            · exact ih hr
          · split at h
            · simp at h
            · next e2 c3 heqop =>
              simp only [Option.some.injEq, Prod.mk.injEq] at h
              obtain ⟨h1, -⟩ := h
              have h2 : rewriteNodeError id e2 = Error.missingTypeAnnot n p := by
                injection h1
              exact absurd (rewriteNodeError_MTA h2) (execOp_no_MTA heqop n p)
            · simp only [Option.some.injEq] at h
              exact absurd rfl (finishNode_err_not_MTA h n p)

/-- Claim C9: every `TypedValue` carries a declared type (`get_type` is
total), so the `MissingTypeAnnotation` branches inside
`resolve_typed_value` for a value lacking a type, or one that is neither
a reference nor a literal, are unreachable; a `MissingTypeAnnotation`
error surfacing from evaluation can only originate from a port's raw
JSON failing to decode into a `TypedValue`, at the named node and
port. -/
theorem missing_type_annot_provenance :
    (∀ tv : TypedValue, (TypedValue.get_type tv).isSome = true)
    ∧ ∀ (g : Graph) (fuel : Nat) (id : String) (st : EngSt) (vis : List String)
        (n p : String) (st' : EngSt) (vis' : List String) (c : Nat),
      executeNode g fuel id st vis = some (.error (.missingTypeAnnot n p), st', vis', c) →
      ∃ node, slookup g.nodes n = some node
        ∧ (p, (none : Option TypedValue)) ∈ node.get_all_typed_args := by
  constructor
  · intro tv
    cases tv <;> rfl
  · intro g fuel id st vis n p st' vis' c h
    exact executeNode_mta h

/-- Witness for C9: the undecodable port `bad` of node `y` in `cycGraph`
is the source of the `MissingTypeAnnotation` reported when resolving
`x`. -/
theorem missing_type_annot_provenance_witness :
    ∃ node, slookup cycGraph.nodes "y" = some node
      ∧ ("bad", (none : Option TypedValue)) ∈ node.get_all_typed_args :=
  missing_type_annot_provenance.2 cycGraph 6 "x" EngSt.empty [] "y" "bad"
    EngSt.empty ["y", "x"] 0 rfl

/-! ## C3: cycle safety -/

theorem finishNode_lookup_other {nodeId : String} {node : Node}
    {result : List (String × Json)} {st : EngSt} {vis : List String} {cnt : Nat}
    {r : Except Error Json} {st' : EngSt} {vis' : List String} {c' : Nat} {k : String}
    (hne : k ≠ nodeId) (hnc : ∀ p, k ≠ nodeId ++ ":" ++ p)
    (h : finishNode nodeId node result st vis cnt = (r, st', vis', c')) :
    slookup st'.cache k = slookup st.cache k := by
  simp only [finishNode] at h
  split at h
  · next heq =>
    simp only [Prod.mk.injEq] at h
    obtain ⟨-, hst, -, -⟩ := h
    subst hst
    rfl
  · next st1 heq =>
    have hst1 : st1.cache = st.cache := checkReturn_ok_cache heq
    split at h <;>
    · simp only [Prod.mk.injEq] at h
      obtain ⟨-, hst, -, -⟩ := h
      subst hst
      rw [slookup_compositeFold _ _ _ _ hnc]
      first
        | rw [slookup_sinsert_ne _ _ _ _ (Ne.symm hne), hst1]
        | rw [hst1]

theorem resolveTypedValueF_S {S : List String}
    {recur : String → EngSt → List String → Option EngOut}
    (hrec : ∀ m st vis r st' vis' c, Uncached S st →
      recur m st vis = some (r, st', vis', c) →
      Uncached S st' ∧ (m ∈ S → ∀ v, r ≠ .ok v)) :
    ∀ {tv : TypedValue} {nid port : String} {st : EngSt} {vis : List String}
      {r : Except Error Json} {st' : EngSt} {vis' : List String} {c : Nat},
    Uncached S st →
    resolveTypedValueF recur tv nid port st vis = some (r, st', vis', c) →
    Uncached S st'
    ∧ (∀ b T, tv = .reference b T → b ∈ S → ∀ v, r ≠ .ok v) := by
  intro tv nid port st vis r st' vis' c hQ h
  cases tv with
  | literal lit T0 =>
    simp only [resolveTypedValueF, TypedValue.get_type, TypedValue.is_reference,
      TypedValue.get_literal, Bool.false_eq_true, if_false] at h
    split at h <;>
    · simp only [Option.some.injEq, Prod.mk.injEq] at h
      obtain ⟨-, hst, -, -⟩ := h
      subst hst
      exact ⟨hQ, fun b T he => TypedValue.noConfusion he⟩
  | reference b0 T0 =>
    simp only [resolveTypedValueF, TypedValue.get_type, TypedValue.is_reference,
      TypedValue.get_reference, if_true] at h
    split at h
    · simp at h
    · next heq =>
      simp only [Option.some.injEq, Prod.mk.injEq] at h
      obtain ⟨h1, hst, -, -⟩ := h
      subst hst
      refine ⟨(hrec _ _ _ _ _ _ _ hQ heq).1, fun b T he hbS v hv => ?_⟩
      rw [← h1] at hv
      exact Except.noConfusion hv
    · next v1 st1 vis1 c1 heq =>
      have hr := hrec _ _ _ _ _ _ _ hQ heq
      split at h
      · simp only [Option.some.injEq, Prod.mk.injEq] at h
        obtain ⟨h1, hst, -, -⟩ := h
        subst hst
        refine ⟨hr.1, fun b T he hbS v hv => ?_⟩
        cases he
        exact hr.2 hbS v1 rfl
      · simp only [Option.some.injEq, Prod.mk.injEq] at h
        obtain ⟨h1, hst, -, -⟩ := h
        subst hst
        refine ⟨hr.1, fun b T he hbS v hv => ?_⟩
        cases he
        exact hr.2 hbS v1 rfl

theorem resolveArgsF_S {S : List String}
    {recur : String → EngSt → List String → Option EngOut} {nid : String}
    (hrec : ∀ m st vis r st' vis' c, Uncached S st →
      recur m st vis = some (r, st', vis', c) →
      Uncached S st' ∧ (m ∈ S → ∀ v, r ≠ .ok v)) :
    ∀ {args : List (String × Option TypedValue)} {acc : List (String × Json)} {st : EngSt}
      {vis : List String} {r : Except Error (List (String × Json))} {st' : EngSt}
      {vis' : List String} {c : Nat},
    Uncached S st →
    resolveArgsF recur nid args acc st vis = some (r, st', vis', c) →
    Uncached S st'
    ∧ ((∃ port b T, (port, some (TypedValue.reference b T)) ∈ args ∧ b ∈ S) →
       ∀ rv, r ≠ .ok rv) := by
  intro args
  induction args with
  | nil =>
    intro acc st vis r st' vis' c hQ h
    simp only [resolveArgsF, Option.some.injEq, Prod.mk.injEq] at h
    obtain ⟨-, hst, -, -⟩ := h
    subst hst
    refine ⟨hQ, fun hedge => ?_⟩
    obtain ⟨port, b, T, hmem, -⟩ := hedge
    simp at hmem
  | cons kv rest ih =>
    intro acc st vis r st' vis' c hQ h
    obtain ⟨key, otv⟩ := kv
    simp only [resolveArgsF] at h
    split at h
    · simp only [Option.some.injEq, Prod.mk.injEq] at h
      obtain ⟨h1, hst, -, -⟩ := h
      subst hst
      refine ⟨hQ, fun _ rv hrv => ?_⟩
      rw [← h1] at hrv
      exact Except.noConfusion hrv
    · next tv =>
      split at h
      · simp at h
      · next heq =>
        simp only [Option.some.injEq, Prod.mk.injEq] at h
        obtain ⟨h1, hst, -, -⟩ := h
        subst hst
        refine ⟨(resolveTypedValueF_S hrec hQ heq).1, fun _ rv hrv => ?_⟩
        rw [← h1] at hrv
        exact Except.noConfusion hrv
      · next v1 st1 vis1 c1 heq =>
        have hrtv := resolveTypedValueF_S hrec hQ heq
        split at h
        · simp at h
        · next r2 st2b vis2b c2b heq2 =>
          simp only [Option.some.injEq, Prod.mk.injEq] at h
          obtain ⟨h1, hst, -, -⟩ := h
          subst hst
          have hih := ih hrtv.1 heq2
          refine ⟨hih.1, fun hedge rv hrv => ?_⟩
          obtain ⟨port, b, T, hmem, hbS⟩ := hedge
          subst h1
          rcases List.mem_cons.mp hmem with hhd | htl
          · have hotv : some (TypedValue.reference b T) = some tv := by
              have := congrArg Prod.snd hhd
              simpa using this
            have htv : tv = TypedValue.reference b T := by
              injection hotv with hh
              exact hh.symm
            subst htv
            exact hrtv.2 b T rfl hbS v1 rfl
          · exact hih.2 ⟨port, b, T, htl, hbS⟩ rv hrv

theorem executeNode_S {g : Graph} {S : List String}
    (hcf : colonFree g) (hS : SuccClosed g S) :
    ∀ (fuel : Nat) {m : String} {st : EngSt} {vis : List String} {r : Except Error Json}
      {st' : EngSt} {vis' : List String} {c : Nat},
    Uncached S st →
    executeNode g fuel m st vis = some (r, st', vis', c) →
    Uncached S st' ∧ (m ∈ S → ∀ v, r ≠ .ok v) := by
  intro fuel
  induction fuel with
  | zero =>
    intro m st vis r st' vis' c hQ h
    simp [executeNode] at h
  | succ f ih =>
    intro m st vis r st' vis' c hQ h
    simp only [executeNode] at h
    split at h
    · next cached heq =>
      simp only [Option.some.injEq, Prod.mk.injEq] at h
      obtain ⟨-, hst, -, -⟩ := h
      subst hst
      refine ⟨hQ, fun hmS v hv => ?_⟩
      rw [hQ m hmS] at heq
      exact Option.noConfusion heq
    · split at h
      · simp only [Option.some.injEq, Prod.mk.injEq] at h
        obtain ⟨h1, hst, -, -⟩ := h
        subst hst
        refine ⟨hQ, fun _ v hv => ?_⟩
        rw [← h1] at hv
        exact Except.noConfusion hv
      · next hmem =>
        split at h
        · simp only [Option.some.injEq, Prod.mk.injEq] at h
          obtain ⟨h1, hst, -, -⟩ := h
          subst hst
          refine ⟨hQ, fun _ v hv => ?_⟩
          rw [← h1] at hv
          exact Except.noConfusion hv
        · next node hnode =>
          have hrec : ∀ m2 st2 vis2 r2 st2' vis2' c2, Uncached S st2 →
              executeNode g f m2 st2 vis2 = some (r2, st2', vis2', c2) →
              Uncached S st2' ∧ (m2 ∈ S → ∀ v, r2 ≠ .ok v) :=
            fun m2 st2 vis2 r2 st2' vis2' c2 hq hh => ih hq hh
          split at h
          · simp at h
          · next e2 st2 vis2 c2 heq =>
            simp only [Option.some.injEq, Prod.mk.injEq] at h
            obtain ⟨h1, hst, -, -⟩ := h
            subst hst
            refine ⟨(resolveArgsF_S hrec hQ heq).1, fun _ v hv => ?_⟩
            rw [← h1] at hv
            exact Except.noConfusion hv
          · next rargs st2 vis2 c2 heq =>
            have hargs := resolveArgsF_S hrec hQ heq
            split at h
            · simp at h
            · next e3 c3 heqop =>
              simp only [Option.some.injEq, Prod.mk.injEq] at h
              obtain ⟨h1, hst, -, -⟩ := h
              subst hst
              refine ⟨hargs.1, fun _ v hv => ?_⟩
              rw [← h1] at hv
              exact Except.noConfusion hv
            · next result c3 heqop =>
              simp only [Option.some.injEq] at h
              constructor
              · intro s hsS
                obtain ⟨b, hbS, nodeS, portS, TS, hnS, -⟩ := hS s hsS
                have hsnc : noColon s := hcf _ (slookup_mem _ _ _ hnS)
                have hsm : s ≠ m ∨ s = m := (ne_or_eq s m)
                rcases hsm with hne | hemS
                · rw [finishNode_lookup_other hne
                    (fun p => noColon_ne_composite hsnc m p) h]
                  exact hargs.1 s hsS
                · subst hemS
                  obtain ⟨b2, hb2S, hedge⟩ := hS s hsS
                  obtain ⟨node2, port2, T2, hn2, hmem2⟩ := hedge
                  rw [hnode] at hn2
                  cases hn2
                  exact absurd rfl
                    (hargs.2 ⟨port2, b2, T2, hmem2, hb2S⟩ rargs)
              · intro hmS v hv
                obtain ⟨b2, hb2S, hedge⟩ := hS m hmS
                obtain ⟨node2, port2, T2, hn2, hmem2⟩ := hedge
                rw [hnode] at hn2
                cases hn2
                exact hargs.2 ⟨port2, b2, T2, hmem2, hb2S⟩ rargs rfl

/-- Counterexample to claim C3 as stated: `cycGraph` contains the
directed cycle `x → y → x` (both cycle edges decode as typed
references), yet resolving either cycle node fails with
`MissingTypeAnnotation` — node `y`'s undecodable port `bad` is resolved
before the cycle edge — not with `CycleDetected`. -/
theorem cycle_detected_counterexample :
    decodeTypedValue (refPort "y" "Number") = some (.reference "y" .number)
    ∧ decodeTypedValue (refPort "x" "Number") = some (.reference "x" .number)
    ∧ resolveValue cycGraph 6 "x" = some (.error (.missingTypeAnnot "y" "bad"))
    ∧ resolveValue cycGraph 6 "y" = some (.error (.missingTypeAnnot "y" "bad")) :=
  ⟨rfl, rfl, rfl, rfl⟩

/-- Claim C3 as amended: over graphs with `:`-free node-ids, resolving
(on a fresh engine) any node of a successor-closed set of node-ids — in
particular any node on a directed cycle of decodable reference edges —
never succeeds, whatever the recursion bound; the diagnostic is
`CycleDetected` unless some other argument of a cycle node fails first,
and in the two-node cycle of scenario S2 both `resolve("x")` and
`resolve("y")` fail with `CycleDetected` (terminating within a concrete
recursion bound). -/
theorem cycle_safety_amended :
    (∀ (g : Graph) (S : List String), colonFree g → SuccClosed g S →
      ∀ (fuel : Nat) (a : String), a ∈ S →
      ∀ v st' vis' c, executeNode g fuel a EngSt.empty [] ≠ some (.ok v, st', vis', c))
    ∧ resolveValue s2Graph 6 "x" = some (.error (.cycleDetected "x"))
    ∧ resolveValue s2Graph 6 "y" = some (.error (.cycleDetected "y")) := by
  refine ⟨?_, rfl, rfl⟩
  intro g S hcf hS fuel a haS v st' vis' c h
  have hQ : Uncached S EngSt.empty := fun s _ => rfl
  exact (executeNode_S hcf hS fuel hQ h).2 haS v rfl

/-- Witness for the amended C3: the S2 cycle `{x, y}` is
successor-closed, and resolving `x` cannot succeed. -/
theorem cycle_safety_amended_witness :
    executeNode s2Graph 5 "x" EngSt.empty [] ≠ some (.ok Json.null, EngSt.empty, [], 0) := by
  have hcf : colonFree s2Graph := by unfold colonFree noColon; decide
  have hS : SuccClosed s2Graph ["x", "y"] := by
    intro a ha
    rcases List.mem_cons.mp ha with h1 | h1
    · subst h1
      refine ⟨"y", by simp, ?_⟩
      refine ⟨⟨"Const", some .number, [("value", refPort "y" "Number")]⟩, "value", .number, rfl, ?_⟩
      show ("value", some (TypedValue.reference "y" SpellType.number)) ∈ _
      have : Node.get_all_typed_args
          ⟨"Const", some .number, [("value", refPort "y" "Number")]⟩
          = [("value", some (TypedValue.reference "y" SpellType.number))] := rfl
      rw [this]
      simp
    · have h2 : a = "y" := by simpa using h1
      subst h2
      refine ⟨"x", by simp, ?_⟩
      refine ⟨⟨"Const", some .number, [("value", refPort "x" "Number")]⟩, "value", .number, rfl, ?_⟩
      show ("value", some (TypedValue.reference "x" SpellType.number)) ∈ _
      have : Node.get_all_typed_args
          ⟨"Const", some .number, [("value", refPort "x" "Number")]⟩
          = [("value", some (TypedValue.reference "x" SpellType.number))] := rfl
      rw [this]
      simp
  exact cycle_safety_amended.1 s2Graph ["x", "y"] hcf hS 5 "x" (by simp)
    Json.null EngSt.empty [] 0
